import Mathlib

/-!
Verification of the Sudoku puzzle engine: a shallow embedding of the
board model (`models/board.py`), the puzzle generator and solution counter
(`models/generator.py`) and the game-state machine (`models/game.py`),
together with theorems settling the specification claims.

Grids are modelled as `List (List Nat)` (9 rows of 9 digits, `0` = empty),
matching the Python `list[list[int]]` representation.  Randomness
(`random.shuffle`, `random.randint`) is modelled by explicit parameters:
a stream of digit orders for the board filler, the chosen target clue
count, and the removal order for cell removal.
-/

namespace Sudoku

/-- A Sudoku grid: rows of digit values, `0` meaning empty. -/
abbrev Grid := List (List Nat)

/-- Read `board[r][c]`, defaulting to `0` out of range. -/
def getCell (g : Grid) (r c : Nat) : Nat := (g.getD r []).getD c 0

/-- Write `board[r][c] = v` (no-op out of range, as `List.set`). -/
def setCell (g : Grid) (r c v : Nat) : Grid :=
  g.set r ((g.getD r []).set c v)

/-- The grid really is 9 rows of 9 cells. -/
def WFGrid (g : Grid) : Prop :=
  g.length = 9 ∧ ∀ row ∈ g, row.length = 9

instance : DecidablePred WFGrid := fun g => by
  unfold WFGrid; infer_instance

/-- All cell values are digits (at most 9). -/
def BoundedGrid (g : Grid) : Prop :=
  ∀ r, r < 9 → ∀ c, c < 9 → getCell g r c ≤ 9

instance : DecidablePred BoundedGrid := fun g => by
  unfold BoundedGrid; infer_instance

/-- All 81 coordinates in row-major order. -/
def allCells : List (Nat × Nat) :=
  (List.range 9).flatMap fun r => (List.range 9).map fun c => (r, c)

/-- The digits `1..9` in ascending order. -/
def digitList : List Nat := List.range' 1 9

/-- The first empty cell in row-major order, if any
(the scan both `_fill_board` and `_count_solutions` perform). -/
def firstEmpty (g : Grid) : Option (Nat × Nat) :=
  allCells.find? fun p => getCell g p.1 p.2 == 0

/-- `_is_valid(board, row, col, digit)`: the digit clashes with no cell of
the same row, column or 3x3 box. -/
def isValid (g : Grid) (row col digit : Nat) : Bool :=
  if (g.getD row []).contains digit then false
  else if ((List.range 9).map fun r => getCell g r col).contains digit then false
  else
    let boxRow := 3 * (row / 3)
    let boxCol := 3 * (col / 3)
    !((List.range 3).any fun i =>
      (List.range 3).any fun j => getCell g (boxRow + i) (boxCol + j) == digit)

/-- The recursive search of `_count_solutions`: `cnt` is the running
solution count (the `solutions[0]` cell); the search stops as soon as it
reaches `limit`.  `fuel` bounds the recursion depth; one unit is consumed
per filled cell, so `82` units suffice for any 9x9 grid. -/
def countAux (limit : Nat) : Nat → Grid → Nat → Nat
  | 0, _, cnt => cnt
  | fuel + 1, b, cnt =>
    if limit ≤ cnt then cnt
    else
      match firstEmpty b with
      | none => cnt + 1
      | some (r, c) =>
        digitList.foldl
          (fun acc d =>
            if isValid b r c d then countAux limit fuel (setCell b r c d) acc
            else acc)
          cnt

/-- `_count_solutions(board, limit)`. -/
def countSolutions (b : Grid) (limit : Nat) : Nat :=
  countAux limit 82 b 0

/-! ### Declarative Sudoku legality

Standard Sudoku legality, stated independently of the search code: two
distinct cells sharing a row, column or 3x3 box never hold the same
nonzero digit. -/

/-- Cells `(r1, c1)` and `(r2, c2)` share a row, a column or a 3x3 box. -/
def SameUnit (r1 c1 r2 c2 : Nat) : Prop :=
  r1 = r2 ∨ c1 = c2 ∨ (r1 / 3 = r2 / 3 ∧ c1 / 3 = c2 / 3)

instance (r1 c1 r2 c2 : Nat) : Decidable (SameUnit r1 c1 r2 c2) := by
  unfold SameUnit; infer_instance

/-- No repeated nonzero digit in any row, column or box. -/
def Consistent (g : Grid) : Prop :=
  ∀ r1, r1 < 9 → ∀ c1, c1 < 9 → ∀ r2, r2 < 9 → ∀ c2, c2 < 9 →
    (r1, c1) ≠ (r2, c2) → SameUnit r1 c1 r2 c2 →
    getCell g r1 c1 ≠ 0 → getCell g r1 c1 ≠ getCell g r2 c2

set_option synthInstance.maxSize 1024 in
instance : DecidablePred Consistent := fun g => by
  unfold Consistent; infer_instance

/-- Every cell is filled with a digit `1..9`. -/
def FullGrid (g : Grid) : Prop :=
  ∀ r, r < 9 → ∀ c, c < 9 → 1 ≤ getCell g r c ∧ getCell g r c ≤ 9

instance : DecidablePred FullGrid := fun g => by
  unfold FullGrid; infer_instance

/-- A complete valid Sudoku grid. -/
def Solved (g : Grid) : Prop :=
  WFGrid g ∧ FullGrid g ∧ Consistent g

instance : DecidablePred Solved := fun g => by
  unfold Solved; infer_instance

/-- `b` agrees with `g` on every clue (nonzero cell) of `g`. -/
def ExtendsGrid (g b : Grid) : Prop :=
  ∀ r, r < 9 → ∀ c, c < 9 → getCell g r c ≠ 0 → getCell b r c = getCell g r c

instance : ∀ g b, Decidable (ExtendsGrid g b) := fun g b => by
  unfold ExtendsGrid; infer_instance

/-- Total assignments of a digit to every cell; `f r c` codes digit
`(f r c) + 1`. -/
abbrev Assignment := Fin 9 → Fin 9 → Fin 9

/-- The grid denoted by an assignment. -/
def gridOfFun (f : Assignment) : Grid :=
  List.ofFn fun r : Fin 9 => List.ofFn fun c : Fin 9 => (f r c).val + 1

/-- `f` is a completion of `g`: a full valid grid extending `g`'s clues. -/
def IsCompletion (g : Grid) (f : Assignment) : Prop :=
  Solved (gridOfFun f) ∧ ExtendsGrid g (gridOfFun f)

instance : ∀ g f, Decidable (IsCompletion g f) := fun g f => by
  unfold IsCompletion; infer_instance

/-- The number of distinct completions of `g` into a full valid grid. -/
def numSolutions (g : Grid) : Nat :=
  Fintype.card { f : Assignment // IsCompletion g f }

/-- The number of empty cells of `g`. -/
def emptiesCount (g : Grid) : Nat :=
  ((Finset.range 9 ×ˢ Finset.range 9).filter fun p => getCell g p.1 p.2 = 0).card

/-- Number of clues (nonzero cells) of a grid. -/
def clueCount (g : Grid) : Nat :=
  ((Finset.range 9 ×ˢ Finset.range 9).filter fun p => getCell g p.1 p.2 ≠ 0).card

/-! ### `_fill_board`

`random.shuffle(digits)` is modelled by a stream `perms : Nat → List Nat`
of digit orders; the `n`-th shuffle performed during the search returns
`perms n`, and every `perms n` is a permutation of `1..9`.  The current
shuffle index is threaded through the recursion along with the (mutated
in place in Python) board.  `fuel` again bounds recursion depth: one unit
per nesting level, so `82` suffices from any 9x9 grid. -/

mutual

/-- `_fill_board(board)`, returning (success, final board, next shuffle
index). -/
def fillBoard (perms : Nat → List Nat) : Nat → Grid → Nat → Bool × Grid × Nat
  | 0, b, k => (false, b, k)
  | fuel + 1, b, k =>
    match firstEmpty b with
    | none => (true, b, k)
    | some (r, c) => fillTry perms fuel r c (perms k) b (k + 1)
  termination_by fuel => (fuel, 0)

/-- The inner `for digit in digits` loop of `_fill_board`: try each digit
in turn; on recursive failure the cell is reset to `0` on the board the
recursive call returned (Python mutates one shared board). -/
def fillTry (perms : Nat → List Nat) (fuel r c : Nat) :
    List Nat → Grid → Nat → Bool × Grid × Nat
  | [], b, k => (false, b, k)
  | d :: ds, b, k =>
    if isValid b r c d then
      match fillBoard perms fuel (setCell b r c d) k with
      | (true, b2, k2) => (true, b2, k2)
      | (false, b2, k2) => fillTry perms fuel r c ds (setCell b2 r c 0) k2
    else fillTry perms fuel r c ds b k
  termination_by ds => (fuel, ds.length + 1)

end

/-- The all-empty 9x9 grid. -/
def emptyGrid : Grid := List.replicate 9 (List.replicate 9 0)

/-- `_generate_solved_board()` (the returned success flag is ignored by
the Python code, which indexes into the board it filled). -/
def generateSolvedBoard (perms : Nat → List Nat) : Grid :=
  (fillBoard perms 82 emptyGrid 0).2.1

/-- The difficulty levels. -/
inductive Difficulty where
  | easy
  | medium
  | hard
  | expert
deriving DecidableEq

/-- `DIFFICULTY_CLUES`: (min, max) clues to leave per difficulty. -/
def difficultyClues : Difficulty → Nat × Nat
  | .easy => (36, 40)
  | .medium => (28, 35)
  | .hard => (22, 27)
  | .expert => (17, 21)

/-- The removal loop of `_create_puzzle`: walk the shuffled cell list,
tentatively zero each cell, keep the removal only when the solution
counter capped at 2 still reports exactly one solution; stop as soon as
the clue counter reaches the target. -/
def removeCells (target : Nat) : List (Nat × Nat) → Grid → Nat → Grid
  | [], p, _ => p
  | (r, c) :: rest, p, clues =>
    if clues ≤ target then p
    else
      let v := getCell p r c
      let p2 := setCell p r c 0
      if countSolutions p2 2 ≠ 1 then removeCells target rest (setCell p2 r c v) clues
      else removeCells target rest p2 (clues - 1)

/-- `_create_puzzle(solution, difficulty)`: `target` is the value drawn
by `random.randint(min_clues, max_clues)` and `cells` the shuffled list
of all 81 coordinates. -/
def createPuzzle (solution : Grid) (target : Nat) (cells : List (Nat × Nat)) : Grid :=
  removeCells target cells solution 81

/-- `generate_puzzle(difficulty)`, with all random outcomes explicit:
`perms` feeds `_fill_board`, `target` is the drawn clue target and
`cells` the shuffled removal order.  Returns (puzzle, solution). -/
def generatePuzzle (perms : Nat → List Nat) (target : Nat)
    (cells : List (Nat × Nat)) : Grid × Grid :=
  let solution := generateSolvedBoard perms
  (createPuzzle solution target cells, solution)

/-- `get_hint(puzzle, solution)`: first incorrect filled cell in
row-major order, else first empty cell, else no hint. -/
def getHint (puzzle solution : Grid) : Option (Nat × Nat × Nat) :=
  match allCells.find? fun p =>
      getCell puzzle p.1 p.2 != 0 &&
      getCell puzzle p.1 p.2 != getCell solution p.1 p.2 with
  | some (r, c) => some (r, c, getCell solution r c)
  | none =>
    match allCells.find? fun p => getCell puzzle p.1 p.2 == 0 with
    | some (r, c) => some (r, c, getCell solution r c)
    | none => none

/-! ### Board (`models/board.py`)

Per-cell candidate notes are Python `set[int]`, modelled as `Finset Nat`. -/

/-- The 9x9 grid of note sets. -/
abbrev NotesGrid := List (List (Finset Nat))

/-- Read `notes[r][c]`, defaulting to the empty set out of range. -/
def getNote (n : NotesGrid) (r c : Nat) : Finset Nat := (n.getD r []).getD c ∅

/-- Write `notes[r][c] = s`. -/
def setNote (n : NotesGrid) (r c : Nat) (s : Finset Nat) : NotesGrid :=
  n.set r ((n.getD r []).set c s)

/-- An empty 9x9 notes grid. -/
def emptyNotes : NotesGrid := List.replicate 9 (List.replicate 9 ∅)

/-- `Board`: given values, current values and per-cell notes. -/
structure Board where
  initialValues : Grid
  currentValues : Grid
  notes : NotesGrid
deriving DecidableEq

/-- `Board()`'s constructor state. -/
def Board.new : Board :=
  { initialValues := emptyGrid, currentValues := emptyGrid, notes := emptyNotes }

/-- `Board.load_puzzle`. -/
def Board.loadPuzzle (puzzle : Grid) : Board :=
  { initialValues := puzzle, currentValues := puzzle, notes := emptyNotes }

/-- `Board.get_value`. -/
def Board.getValue (b : Board) (r c : Nat) : Nat := getCell b.currentValues r c

/-- `Board.is_given`. -/
def Board.isGiven (b : Board) (r c : Nat) : Bool :=
  getCell b.initialValues r c != 0

/-- `Board.set_value`: refuses given cells; writing a nonzero value
clears the cell's notes. -/
def Board.setValue (b : Board) (r c v : Nat) : Bool × Board :=
  if getCell b.initialValues r c ≠ 0 then (false, b)
  else
    let b2 := { b with currentValues := setCell b.currentValues r c v }
    if v ≠ 0 then (true, { b2 with notes := setNote b2.notes r c ∅ })
    else (true, b2)

/-- `Board.clear_cell`. -/
def Board.clearCell (b : Board) (r c : Nat) : Bool × Board := b.setValue r c 0

/-- `Board.toggle_note`: refuses cells holding a value. -/
def Board.toggleNote (b : Board) (r c d : Nat) : Bool × Board :=
  if getCell b.currentValues r c ≠ 0 then (false, b)
  else
    let s := getNote b.notes r c
    if d ∈ s then (true, { b with notes := setNote b.notes r c (s.erase d) })
    else (true, { b with notes := setNote b.notes r c (insert d s) })

/-- `Board.get_notes` (returns a copy in Python; sets are values here). -/
def Board.getNotes (b : Board) (r c : Nat) : Finset Nat := getNote b.notes r c

/-- `Board.is_complete`: no empty cell, and every row, column and box
holds 9 distinct values. -/
def Board.isComplete (b : Board) : Bool :=
  b.currentValues.all (fun row => !(row.contains 0)) &&
  b.currentValues.all (fun row => row.toFinset.card == 9) &&
  ((List.range 9).all fun c =>
    ((List.range 9).map fun r => getCell b.currentValues r c).toFinset.card == 9) &&
  ((List.range 3).all fun br =>
    (List.range 3).all fun bc =>
      (((List.range 3).flatMap fun i => (List.range 3).map fun j =>
        getCell b.currentValues (br * 3 + i) (bc * 3 + j)).toFinset.card == 9))

/-- `Board.get_empty_cells` (row-major). -/
def Board.getEmptyCells (b : Board) : List (Nat × Nat) :=
  allCells.filter fun p => getCell b.currentValues p.1 p.2 == 0

/-! ### Moves and game state (`models/game.py`) -/

/-- A history entry. -/
structure Move where
  row : Nat
  col : Nat
  oldValue : Nat
  newValue : Nat
  oldNotes : Finset Nat
  newNotes : Finset Nat
deriving DecidableEq

/-- Default used for (unreachable) out-of-range history indexing. -/
def defaultMove : Move := ⟨0, 0, 0, 0, ∅, ∅⟩

/-- `GameState`.  `historyIndex` is the Python `history_index` with its
`-1` sentinel, hence an `Int`.  The timer is externally ticked wall-clock
time, irrelevant to every operation modelled here. -/
structure GameState where
  board : Board
  solution : Grid
  difficulty : Difficulty
  timer : Nat
  history : List Move
  historyIndex : Int
  notesMode : Bool
  isPaused : Bool
  isComplete : Bool
  selectedCell : Option (Nat × Nat)
deriving DecidableEq

/-- `GameState()`'s constructor state. -/
def GameState.init : GameState :=
  { board := Board.new, solution := [], difficulty := .medium, timer := 0,
    history := [], historyIndex := -1, notesMode := false, isPaused := false,
    isComplete := false, selectedCell := none }

/-- `GameState.new_game(difficulty)` with the generator's random
outcomes passed explicitly. -/
def GameState.newGame (_s : GameState) (d : Difficulty) (perms : Nat → List Nat)
    (target : Nat) (cells : List (Nat × Nat)) : GameState :=
  let pz := generatePuzzle perms target cells
  { board := Board.loadPuzzle pz.1, solution := pz.2, difficulty := d,
    timer := 0, history := [], historyIndex := -1, notesMode := false,
    isPaused := false, isComplete := false, selectedCell := some (0, 0) }

/-- `GameState.make_move(row, col, value)`. -/
def GameState.makeMove (s : GameState) (row col value : Nat) : Bool × GameState :=
  if s.isComplete || s.board.isGiven row col then (false, s)
  else
    let oldValue := s.board.getValue row col
    let oldNotes := s.board.getNotes row col
    let step :
        Board × Move :=
      if s.notesMode && value ≠ 0 then
        let b2 := (s.board.toggleNote row col value).2
        (b2, ⟨row, col, oldValue, oldValue, oldNotes, b2.getNotes row col⟩)
      else
        let b2 := (s.board.setValue row col value).2
        (b2, ⟨row, col, oldValue, value, oldNotes, ∅⟩)
    let hist :=
      if s.historyIndex < (s.history.length : Int) - 1 then
        s.history.take (s.historyIndex + 1).toNat
      else s.history
    let hist2 := hist ++ [step.2]
    let s2 :=
      { s with
          board := step.1
          history := hist2
          historyIndex := (hist2.length : Int) - 1 }
    if step.1.isComplete then (true, { s2 with isComplete := true })
    else (true, s2)

/-- `GameState.undo()`. -/
def GameState.undo (s : GameState) : Bool × GameState :=
  if s.historyIndex < 0 then (false, s)
  else
    let m := s.history.getD s.historyIndex.toNat defaultMove
    let b2 := (s.board.setValue m.row m.col m.oldValue).2
    let b3 := { b2 with notes := setNote b2.notes m.row m.col m.oldNotes }
    (true, { s with
        board := b3
        historyIndex := s.historyIndex - 1
        isComplete := false })

/-- `GameState.redo()`. -/
def GameState.redo (s : GameState) : Bool × GameState :=
  if s.historyIndex ≥ (s.history.length : Int) - 1 then (false, s)
  else
    let i := s.historyIndex + 1
    let m := s.history.getD i.toNat defaultMove
    let b2 := (s.board.setValue m.row m.col m.newValue).2
    let b3 := { b2 with notes := setNote b2.notes m.row m.col m.newNotes }
    let s2 := { s with board := b3, historyIndex := i }
    if b3.isComplete then (true, { s2 with isComplete := true })
    else (true, s2)

/-- `GameState.get_hint()`. -/
def GameState.getHint (s : GameState) : Option (Nat × Nat × Nat) :=
  Sudoku.getHint s.board.currentValues s.solution

/-- `GameState.apply_hint()`: forces notes mode off around a
`make_move` with the hinted digit. -/
def GameState.applyHint (s : GameState) : Option (Nat × Nat × Nat) × GameState :=
  match s.getHint with
  | none => (none, s)
  | some (r, c, v) =>
    let oldNotesMode := s.notesMode
    let s2 := (GameState.makeMove { s with notesMode := false } r c v).2
    (some (r, c, v), { s2 with notesMode := oldNotesMode })

/-- `GameState.toggle_notes_mode()`. -/
def GameState.toggleNotesMode (s : GameState) : GameState :=
  { s with notesMode := !s.notesMode }

/-- `GameState.clear_cell(row, col)`: clears value and notes directly;
recorded in history only when something was actually cleared. -/
def GameState.clearCell (s : GameState) (row col : Nat) : Bool × GameState :=
  if s.board.isGiven row col then (false, s)
  else
    let oldValue := s.board.getValue row col
    let oldNotes := s.board.getNotes row col
    let b2 := (s.board.setValue row col 0).2
    let b3 := { b2 with notes := setNote b2.notes row col ∅ }
    if oldValue ≠ 0 ∨ oldNotes ≠ ∅ then
      let hist :=
        if s.historyIndex < (s.history.length : Int) - 1 then
          s.history.take (s.historyIndex + 1).toNat
        else s.history
      let hist2 := hist ++ [⟨row, col, oldValue, 0, oldNotes, ∅⟩]
      (true, { s with
          board := b3
          history := hist2
          historyIndex := (hist2.length : Int) - 1 })
    else (true, { s with board := b3 })

/-- `GameState.select_cell(row, col)`. -/
def GameState.selectCell (s : GameState) (row col : Nat) : GameState :=
  if row < 9 ∧ col < 9 then { s with selectedCell := some (row, col) }
  else s

/-- `GameState.move_selection(dr, dc)` (deltas are integers). -/
def GameState.moveSelection (s : GameState) (dr dc : Int) : GameState :=
  match s.selectedCell with
  | none => { s with selectedCell := some (0, 0) }
  | some (row, col) =>
    let newRow := (max 0 (min 8 ((row : Int) + dr))).toNat
    let newCol := (max 0 (min 8 ((col : Int) + dc))).toNat
    { s with selectedCell := some (newRow, newCol) }

/-- Python tuple order on coordinates. -/
def pairLt (p q : Nat × Nat) : Bool :=
  p.1 < q.1 || (p.1 == q.1 && p.2 < q.2)

/-- `GameState.move_to_next_empty(reverse)`. -/
def GameState.moveToNextEmpty (s : GameState) (reverse : Bool) : GameState :=
  let s1 := if s.selectedCell = none then { s with selectedCell := some (0, 0) }
    else s
  let emptyCells0 := s1.board.getEmptyCells
  if emptyCells0 = [] then s1
  else
    let emptyCells := if reverse then emptyCells0.reverse else emptyCells0
    let current := s1.selectedCell.getD (0, 0)
    match emptyCells.find? fun cell =>
        if reverse then pairLt cell current else pairLt current cell with
    | some cell => { s1 with selectedCell := some cell }
    | none => { s1 with selectedCell := some (emptyCells.getD 0 (0, 0)) }

/-! ### Reachable game states and invariants -/

/-- Game states reachable through the public `GameState` interface,
from construction onwards; the generator's random outcomes are
constrained exactly as the Python `random` module guarantees
(`shuffle` permutes, `randint` stays in range). -/
inductive Reachable : GameState → Prop where
  | init : Reachable GameState.init
  | newGame {s} (d : Difficulty) (perms : Nat → List Nat) (target : Nat)
      (cells : List (Nat × Nat)) :
      Reachable s →
      (∀ n, (perms n).Perm digitList) →
      (difficultyClues d).1 ≤ target → target ≤ (difficultyClues d).2 →
      cells.Perm allCells →
      Reachable (s.newGame d perms target cells)
  | makeMove {s} (r c v : Nat) : Reachable s → Reachable (s.makeMove r c v).2
  | undo {s} : Reachable s → Reachable s.undo.2
  | redo {s} : Reachable s → Reachable s.redo.2
  | applyHint {s} : Reachable s → Reachable s.applyHint.2
  | toggleNotesMode {s} : Reachable s → Reachable s.toggleNotesMode
  | clearCell {s} (r c : Nat) : Reachable s → Reachable (s.clearCell r c).2
  | selectCell {s} (r c : Nat) : Reachable s → Reachable (s.selectCell r c)
  | moveSelection {s} (dr dc : Int) : Reachable s → Reachable (s.moveSelection dr dc)
  | moveToNextEmpty {s} (rev : Bool) : Reachable s → Reachable (s.moveToNextEmpty rev)

/-- The Board invariant of the spec: given cells never change, and notes
are empty wherever a value is present. -/
def BoardInv (b : Board) : Prop :=
  (∀ r, r < 9 → ∀ c, c < 9 →
    getCell b.initialValues r c ≠ 0 →
    getCell b.currentValues r c = getCell b.initialValues r c) ∧
  (∀ r, r < 9 → ∀ c, c < 9 →
    getCell b.currentValues r c ≠ 0 → getNote b.notes r c = ∅)

instance : DecidablePred BoardInv := fun b => by
  unfold BoardInv; infer_instance

/-- History entries never touch given cells, and their recorded states
respect the notes-empty-on-valued-cells discipline. -/
def MoveOk (b : Board) (m : Move) : Prop :=
  getCell b.initialValues m.row m.col = 0 ∧
  (m.oldValue ≠ 0 → m.oldNotes = ∅) ∧
  (m.newValue ≠ 0 → m.newNotes = ∅)

/-- The notes grid really is 9x9. -/
def WFNotes (n : NotesGrid) : Prop :=
  n.length = 9 ∧ ∀ row ∈ n, row.length = 9

instance : DecidablePred WFNotes := fun n => by
  unfold WFNotes; infer_instance

/-- The state invariant carried along `Reachable`. -/
def GameInv (s : GameState) : Prop :=
  (-1 : Int) ≤ s.historyIndex ∧
  s.historyIndex < (s.history.length : Int) ∧
  WFGrid s.board.initialValues ∧
  WFGrid s.board.currentValues ∧
  WFNotes s.board.notes ∧
  (∀ m ∈ s.history, MoveOk s.board m) ∧
  BoardInv s.board

/-! ### Concrete sample data used by witnesses and counterexamples -/

/-- The all-ones grid: fully filled but violently inconsistent. -/
def onesGrid : Grid := List.replicate 9 (List.replicate 9 1)

/-- A concrete complete valid Sudoku grid. -/
def sampleSolved : Grid := [
  [9, 4, 7, 6, 8, 2, 5, 3, 1],
  [2, 3, 5, 4, 7, 1, 6, 9, 8],
  [8, 6, 1, 3, 5, 9, 4, 7, 2],
  [5, 1, 3, 9, 4, 6, 8, 2, 7],
  [4, 9, 6, 7, 2, 8, 3, 1, 5],
  [7, 8, 2, 1, 3, 5, 9, 6, 4],
  [1, 5, 8, 2, 9, 3, 7, 4, 6],
  [3, 2, 4, 5, 6, 7, 1, 8, 9],
  [6, 7, 9, 8, 1, 4, 2, 5, 3]]

/-- `sampleSolved` as an assignment. -/
def sampleAssignment : Assignment := fun r c =>
  ⟨(getCell sampleSolved r.val c.val - 1) % 9, Nat.mod_lt _ (by norm_num)⟩

/-- A shuffle stream whose every draw is the identity permutation. -/
def constPerms : Nat → List Nat := fun _ => digitList

/-! #### The undo-redo divergence run (claim C6)

From a fresh `GameState()`: pencil the note `5` into the empty cell
`(0, 0)`, leave notes mode, write value `0` into that cell (a value-mode
move), then undo and redo.  `make_move` records `new_notes = {}` for the
value move although `set_value(r, c, 0)` leaves the pencilled note on
the board, so the redo erases a note the undo had left in place. -/

/-- Notes mode on. -/
def demoS1 : GameState := GameState.init.toggleNotesMode

/-- Note `5` pencilled into `(0, 0)`. -/
def demoS2 : GameState := (demoS1.makeMove 0 0 5).2

/-- Notes mode off again. -/
def demoS3 : GameState := demoS2.toggleNotesMode

/-- Value move writing `0` into `(0, 0)`. -/
def demoS4 : GameState := (demoS3.makeMove 0 0 0).2

/-- After `undo()`. -/
def demoS5 : GameState := demoS4.undo.2

/-- After `redo()`. -/
def demoS6 : GameState := demoS5.redo.2

/-- The claim's description of `get_hint` (amended in its final clause):
(1) the row-major-first incorrect filled cell is returned with the
solution digit; (2) if no cell is incorrect, the row-major-first empty
cell is returned with the solution digit; (3) no hint exists iff every
cell is filled and agrees with the solution. -/
def HintSpec (cur sol : Grid) : Prop :=
  (∀ r c, r < 9 → c < 9 →
    getCell cur r c ≠ 0 → getCell cur r c ≠ getCell sol r c →
    (∀ r2 c2, r2 < 9 → c2 < 9 → 9 * r2 + c2 < 9 * r + c →
      ¬(getCell cur r2 c2 ≠ 0 ∧ getCell cur r2 c2 ≠ getCell sol r2 c2)) →
    getHint cur sol = some (r, c, getCell sol r c)) ∧
  ((∀ r c, r < 9 → c < 9 → getCell cur r c ≠ 0 →
      getCell cur r c = getCell sol r c) →
    ∀ r c, r < 9 → c < 9 → getCell cur r c = 0 →
    (∀ r2 c2, r2 < 9 → c2 < 9 → 9 * r2 + c2 < 9 * r + c →
      getCell cur r2 c2 ≠ 0) →
    getHint cur sol = some (r, c, getCell sol r c)) ∧
  (getHint cur sol = none ↔
    ∀ r c, r < 9 → c < 9 →
      getCell cur r c ≠ 0 ∧ getCell cur r c = getCell sol r c)

/-! ## Theorems

### Grid toolkit -/

theorem list_getD_set_self {α : Type} (l : List α) (i : Nat) (x d : α)
    (h : i < l.length) : (l.set i x).getD i d = x := by
  rw [List.getD_eq_getElem?_getD, List.getElem?_set_self h]
  rfl

theorem list_getD_set_ne {α : Type} (l : List α) (i j : Nat) (x d : α)
    (h : i ≠ j) : (l.set i x).getD j d = l.getD j d := by
  rw [List.getD_eq_getElem?_getD, List.getElem?_set_ne h,
    List.getD_eq_getElem?_getD]

theorem list_set_getD_self {α : Type} (l : List α) (i : Nat) (d : α) :
    l.set i (l.getD i d) = l := by
  apply List.ext_getElem?
  intro n
  by_cases hi : i = n
  · subst hi
    by_cases h : i < l.length
    · rw [List.getElem?_set_self h, List.getD_eq_getElem _ _ h,
        List.getElem?_eq_getElem h]
    · rw [List.set_eq_of_length_le (Nat.le_of_not_lt h)]
  · exact List.getElem?_set_ne hi

theorem setCell_oob (g : Grid) (r c v : Nat) (h : g.length ≤ r) :
    setCell g r c v = g := by
  unfold setCell
  exact List.set_eq_of_length_le h

theorem length_setCell (g : Grid) (r c v : Nat) :
    (setCell g r c v).length = g.length := by
  simp [setCell]

theorem wf_setCell {g : Grid} (h : WFGrid g) (r c v : Nat) :
    WFGrid (setCell g r c v) := by
  obtain ⟨hlen, hrow⟩ := h
  rcases Nat.lt_or_ge r g.length with hr | hr
  · refine ⟨by simp [setCell, hlen], ?_⟩
    intro row hm
    rcases List.mem_or_eq_of_mem_set hm with hmem | heq
    · exact hrow row hmem
    · subst heq
      rw [List.length_set, List.getD_eq_getElem _ _ hr]
      exact hrow _ (List.getElem_mem hr)
  · rw [setCell_oob g r c v hr]
    exact ⟨hlen, hrow⟩

theorem getCell_setCell_self {g : Grid} (h : WFGrid g) {r c : Nat}
    (hr : r < 9) (hc : c < 9) (v : Nat) :
    getCell (setCell g r c v) r c = v := by
  obtain ⟨hlen, hrow⟩ := h
  have hrl : r < g.length := by omega
  have hcl : c < (g.getD r []).length := by
    rw [List.getD_eq_getElem _ _ hrl, hrow _ (List.getElem_mem hrl)]
    exact hc
  unfold getCell setCell
  rw [list_getD_set_self _ _ _ _ hrl, list_getD_set_self _ _ _ _ hcl]

theorem getCell_setCell_ne (g : Grid) (r c v r2 c2 : Nat)
    (hne : ¬(r = r2 ∧ c = c2)) :
    getCell (setCell g r c v) r2 c2 = getCell g r2 c2 := by
  unfold getCell setCell
  by_cases hrl : r < g.length
  · by_cases hr : r = r2
    · subst hr
      have hc : c ≠ c2 := fun h => hne ⟨rfl, h⟩
      rw [list_getD_set_self _ _ _ _ hrl, list_getD_set_ne _ _ _ _ _ hc]
    · rw [list_getD_set_ne _ _ _ _ _ hr]
  · rw [List.set_eq_of_length_le (Nat.le_of_not_lt hrl)]

theorem setCell_setCell (g : Grid) (r c v w : Nat) :
    setCell (setCell g r c v) r c w = setCell g r c w := by
  unfold setCell
  by_cases hrl : r < g.length
  · rw [list_getD_set_self _ _ _ _ hrl, List.set_set, List.set_set]
  · rw [List.set_eq_of_length_le (Nat.le_of_not_lt hrl),
      List.set_eq_of_length_le (Nat.le_of_not_lt hrl)]

theorem setCell_self (g : Grid) (r c : Nat) :
    setCell g r c (getCell g r c) = g := by
  unfold setCell getCell
  rw [list_set_getD_self, list_set_getD_self]

/-! ### Cell enumeration and the first-empty-cell scan -/

theorem allCells_nodup : allCells.Nodup := by decide

theorem mem_allCells : ∀ r, r < 9 → ∀ c, c < 9 → (r, c) ∈ allCells := by decide

theorem allCells_bounds : ∀ p ∈ allCells, p.1 < 9 ∧ p.2 < 9 := by decide

theorem rowLength_of_wf {g : Grid} (h : WFGrid g) {r : Nat} (hr : r < 9) :
    (g.getD r []).length = 9 := by
  obtain ⟨hlen, hrow⟩ := h
  have hrl : r < g.length := by omega
  rw [List.getD_eq_getElem _ _ hrl]
  exact hrow _ (List.getElem_mem hrl)

theorem firstEmpty_none_iff (g : Grid) :
    firstEmpty g = none ↔ ∀ r, r < 9 → ∀ c, c < 9 → getCell g r c ≠ 0 := by
  unfold firstEmpty
  rw [List.find?_eq_none]
  constructor
  · intro h r hr c hc hz
    have := h (r, c) (mem_allCells r hr c hc)
    simp only [beq_iff_eq] at this
    exact this hz
  · intro h p hp
    obtain ⟨h1, h2⟩ := allCells_bounds p hp
    simp only [beq_iff_eq]
    exact h p.1 h1 p.2 h2

theorem firstEmpty_some {g : Grid} {r c : Nat}
    (h : firstEmpty g = some (r, c)) :
    r < 9 ∧ c < 9 ∧ getCell g r c = 0 := by
  unfold firstEmpty at h
  have hmem := List.mem_of_find?_eq_some h
  have hp := List.find?_some h
  simp only [beq_iff_eq] at hp
  exact ⟨(allCells_bounds _ hmem).1, (allCells_bounds _ hmem).2, hp⟩

theorem emptiesCount_le (g : Grid) : emptiesCount g ≤ 81 := by
  unfold emptiesCount
  calc ((Finset.range 9 ×ˢ Finset.range 9).filter
        fun p => getCell g p.1 p.2 = 0).card
      ≤ (Finset.range 9 ×ˢ Finset.range 9).card := Finset.card_filter_le _ _
    _ = 81 := by simp

theorem emptiesCount_setCell_lt {g : Grid} (hwf : WFGrid g) {r c : Nat}
    (hr : r < 9) (hc : c < 9) (hz : getCell g r c = 0) (v : Nat) (hv : v ≠ 0) :
    emptiesCount (setCell g r c v) < emptiesCount g := by
  unfold emptiesCount
  apply Finset.card_lt_card
  constructor
  · intro p hp
    rw [Finset.mem_filter] at hp ⊢
    refine ⟨hp.1, ?_⟩
    have hne : ¬(r = p.1 ∧ c = p.2) := by
      intro hcontra
      obtain ⟨h1, h2⟩ := hcontra
      have := hp.2
      rw [← h1, ← h2, getCell_setCell_self hwf hr hc] at this
      exact hv this
    rw [← getCell_setCell_ne g r c v p.1 p.2 hne]
    exact hp.2
  · intro hsub
    have hmem : (r, c) ∈ (Finset.range 9 ×ˢ Finset.range 9).filter
        fun p => getCell g p.1 p.2 = 0 := by
      rw [Finset.mem_filter]
      exact ⟨by simp [Finset.mem_product, hr, hc], hz⟩
    have := hsub hmem
    rw [Finset.mem_filter, getCell_setCell_self hwf hr hc] at this
    exact hv this.2

/-! ### The placement check against declarative legality -/

theorem getCell_def (g : Grid) (r c : Nat) :
    getCell g r c = (g.getD r []).getD c 0 := rfl

theorem isValid_iff {g : Grid} (hwf : WFGrid g) {r c : Nat}
    (hr : r < 9) (hc : c < 9) {d : Nat} :
    isValid g r c d = true ↔
      ∀ r2, r2 < 9 → ∀ c2, c2 < 9 → SameUnit r c r2 c2 →
        getCell g r2 c2 ≠ d := by
  have hrowlen := rowLength_of_wf hwf hr
  have hrowMem : (g.getD r []).contains d = true ↔
      ∃ c2, c2 < 9 ∧ getCell g r c2 = d := by
    rw [List.contains_eq_any_beq, List.any_eq_true]
    constructor
    · rintro ⟨x, hx, hbeq⟩
      simp only [beq_iff_eq] at hbeq
      subst hbeq
      obtain ⟨n, hn, hget⟩ := List.mem_iff_getElem.mp hx
      refine ⟨n, by omega, ?_⟩
      rw [getCell_def g r n, List.getD_eq_getElem _ _ hn, hget]
    · rintro ⟨c2, hc2, hget⟩
      refine ⟨d, ?_, by simp⟩
      rw [getCell_def g r c2] at hget
      rw [← hget]
      have hc2l : c2 < (g.getD r []).length := by omega
      rw [List.getD_eq_getElem _ _ hc2l]
      exact List.getElem_mem hc2l
  have hcolMem : ((List.range 9).map fun r2 => getCell g r2 c).contains d = true ↔
      ∃ r2, r2 < 9 ∧ getCell g r2 c = d := by
    rw [List.contains_eq_any_beq, List.any_eq_true]
    constructor
    · rintro ⟨x, hx, hbeq⟩
      simp only [beq_iff_eq] at hbeq
      subst hbeq
      obtain ⟨r2, hr2, hget⟩ := List.mem_map.mp hx
      exact ⟨r2, List.mem_range.mp hr2, hget⟩
    · rintro ⟨r2, hr2, hget⟩
      exact ⟨d, List.mem_map.mpr ⟨r2, List.mem_range.mpr hr2, hget⟩, by simp⟩
  have hboxMem : ((List.range 3).any fun i => (List.range 3).any fun j =>
        getCell g (3 * (r / 3) + i) (3 * (c / 3) + j) == d) = true ↔
      ∃ i, i < 3 ∧ ∃ j, j < 3 ∧ getCell g (3 * (r / 3) + i) (3 * (c / 3) + j) = d := by
    simp only [List.any_eq_true, List.mem_range, beq_iff_eq]
  constructor
  · intro hvalid r2 hr2 c2 hc2 hsame hget
    unfold isValid at hvalid
    split at hvalid
    · exact Bool.false_ne_true hvalid
    · split at hvalid
      · exact Bool.false_ne_true hvalid
      · next hrow hcol =>
        rcases hsame with hs | hs | hs
        · subst hs
          exact hrow (hrowMem.mpr ⟨c2, hc2, hget⟩)
        · subst hs
          exact hcol (hcolMem.mpr ⟨r2, hr2, hget⟩)
        · obtain ⟨hdr, hdc⟩ := hs
          simp only [Bool.not_eq_true'] at hvalid
          have hib : r2 = 3 * (r2 / 3) + r2 % 3 := by omega
          have hjb : c2 = 3 * (c2 / 3) + c2 % 3 := by omega
          have hex : ∃ i, i < 3 ∧ ∃ j, j < 3 ∧
              getCell g (3 * (r / 3) + i) (3 * (c / 3) + j) = d := by
            refine ⟨r2 % 3, by omega, c2 % 3, by omega, ?_⟩
            rw [hdr, hdc, ← hib, ← hjb]
            exact hget
          rw [← hboxMem, hvalid] at hex
          exact Bool.false_ne_true hex
  · intro hall
    unfold isValid
    have h1 : (g.getD r []).contains d = false := by
      rw [Bool.eq_false_iff]
      intro hcon
      obtain ⟨c2, hc2, hget⟩ := hrowMem.mp hcon
      exact hall r hr c2 hc2 (Or.inl rfl) hget
    have h2 : ((List.range 9).map fun r2 => getCell g r2 c).contains d = false := by
      rw [Bool.eq_false_iff]
      intro hcon
      obtain ⟨r2, hr2, hget⟩ := hcolMem.mp hcon
      exact hall r2 hr2 c hc (Or.inr (Or.inl rfl)) hget
    have h3 : ((List.range 3).any fun i => (List.range 3).any fun j =>
        getCell g (3 * (r / 3) + i) (3 * (c / 3) + j) == d) = false := by
      rw [Bool.eq_false_iff]
      intro hcon
      obtain ⟨i, hi, j, hj, hget⟩ := hboxMem.mp hcon
      have hsame : SameUnit r c (3 * (r / 3) + i) (3 * (c / 3) + j) :=
        Or.inr (Or.inr ⟨by omega, by omega⟩)
      exact hall _ (by omega) _ (by omega) hsame hget
    rw [h1, h2]
    simp [h3]

theorem sameUnit_symm {r1 c1 r2 c2 : Nat} (h : SameUnit r1 c1 r2 c2) :
    SameUnit r2 c2 r1 c1 := by
  rcases h with h | h | h
  · exact Or.inl h.symm
  · exact Or.inr (Or.inl h.symm)
  · exact Or.inr (Or.inr ⟨h.1.symm, h.2.symm⟩)

theorem consistent_setCell_zero {g : Grid} (hwf : WFGrid g)
    (hcons : Consistent g) {r c : Nat} (hr : r < 9) (hc : c < 9) :
    Consistent (setCell g r c 0) := by
  intro r1 h1 c1 h2 r2 h3 c2 h4 hne hsame hnz heq
  by_cases e1 : r = r1 ∧ c = c1
  · rw [← e1.1, ← e1.2, getCell_setCell_self hwf hr hc] at hnz
    exact hnz rfl
  · rw [getCell_setCell_ne g r c 0 r1 c1 e1] at hnz heq
    by_cases e2 : r = r2 ∧ c = c2
    · rw [← e2.1, ← e2.2, getCell_setCell_self hwf hr hc] at heq
      exact hnz heq
    · rw [getCell_setCell_ne g r c 0 r2 c2 e2] at heq
      exact hcons r1 h1 c1 h2 r2 h3 c2 h4 hne hsame hnz heq

theorem consistent_setCell_valid {g : Grid} (hwf : WFGrid g)
    (hcons : Consistent g) {r c d : Nat} (hr : r < 9) (hc : c < 9)
    (hz : getCell g r c = 0) (hvalid : isValid g r c d = true) :
    Consistent (setCell g r c d) := by
  have hval := (isValid_iff hwf hr hc).mp hvalid
  intro r1 h1 c1 h2 r2 h3 c2 h4 hne hsame hnz heq
  by_cases e1 : r = r1 ∧ c = c1
  · obtain ⟨er, ec⟩ := e1
    subst er; subst ec
    rw [getCell_setCell_self hwf hr hc] at hnz heq
    have e2 : ¬(r = r2 ∧ c = c2) := by
      intro hcontra
      exact hne (Prod.ext hcontra.1.symm hcontra.2.symm).symm
    rw [getCell_setCell_ne g r c d r2 c2 e2] at heq
    exact hval r2 h3 c2 h4 hsame heq.symm
  · rw [getCell_setCell_ne g r c d r1 c1 e1] at hnz heq
    by_cases e2 : r = r2 ∧ c = c2
    · obtain ⟨er, ec⟩ := e2
      subst er; subst ec
      rw [getCell_setCell_self hwf hr hc] at heq
      exact hval r1 h1 c1 h2 (sameUnit_symm hsame) heq
    · rw [getCell_setCell_ne g r c d r2 c2 e2] at heq
      exact hcons r1 h1 c1 h2 r2 h3 c2 h4 hne hsame hnz heq

theorem bounded_setCell {g : Grid} (hwf : WFGrid g) (hb : BoundedGrid g)
    {r c v : Nat} (hr : r < 9) (hc : c < 9) (hv : v ≤ 9) :
    BoundedGrid (setCell g r c v) := by
  intro r2 hr2 c2 hc2
  by_cases e : r = r2 ∧ c = c2
  · rw [← e.1, ← e.2, getCell_setCell_self hwf hr hc]
    exact hv
  · rw [getCell_setCell_ne g r c v r2 c2 e]
    exact hb r2 hr2 c2 hc2

/-! ### Completions -/

theorem gridOfFun_wf (f : Assignment) : WFGrid (gridOfFun f) := by
  constructor
  · simp [gridOfFun]
  · intro row hm
    unfold gridOfFun at hm
    rw [List.mem_ofFn] at hm
    obtain ⟨i, hi⟩ := hm
    rw [← hi]
    simp

theorem getCell_gridOfFun (f : Assignment) {r c : Nat} (hr : r < 9) (hc : c < 9) :
    getCell (gridOfFun f) r c = (f ⟨r, hr⟩ ⟨c, hc⟩).val + 1 := by
  unfold getCell gridOfFun
  have hlr : r < (List.ofFn fun r2 : Fin 9 =>
      List.ofFn fun c2 : Fin 9 => (f r2 c2).val + 1).length := by
    rw [List.length_ofFn]; exact hr
  rw [List.getD_eq_getElem _ _ hlr, List.getElem_ofFn]
  have hlc : c < (List.ofFn fun c2 : Fin 9 =>
      (f ⟨r, hr⟩ c2).val + 1).length := by
    rw [List.length_ofFn]; exact hc
  rw [List.getD_eq_getElem _ _ hlc, List.getElem_ofFn]

theorem grid_ext {g1 g2 : Grid} (h1 : WFGrid g1) (h2 : WFGrid g2)
    (h : ∀ r, r < 9 → ∀ c, c < 9 → getCell g1 r c = getCell g2 r c) :
    g1 = g2 := by
  obtain ⟨hl1, hrow1⟩ := h1
  obtain ⟨hl2, hrow2⟩ := h2
  apply List.ext_getElem (by rw [hl1, hl2])
  intro r hr1 hr2
  have hr9 : r < 9 := by omega
  apply List.ext_getElem
  · have e1 : g1[r] ∈ g1 := List.getElem_mem hr1
    have e2 : g2[r] ∈ g2 := List.getElem_mem hr2
    rw [hrow1 _ e1, hrow2 _ e2]
  · intro c hc1 hc2
    have hc9 : c < 9 := by
      have := hrow1 _ (List.getElem_mem hr1)
      omega
    have := h r hr9 c hc9
    unfold getCell at this
    rw [List.getD_eq_getElem _ _ hr1, List.getD_eq_getElem _ _ hr2] at this
    rw [List.getD_eq_getElem _ _ hc1, List.getD_eq_getElem _ _ hc2] at this
    exact this

theorem gridOfFun_injective {f1 f2 : Assignment}
    (h : gridOfFun f1 = gridOfFun f2) : f1 = f2 := by
  funext r c
  have := getCell_gridOfFun f1 r.isLt c.isLt
  rw [h, getCell_gridOfFun f2 r.isLt c.isLt] at this
  simp only [Fin.eta] at this
  have hv : (f1 r c).val = (f2 r c).val := by omega
  exact Fin.ext hv

theorem completion_setCell_iff {g : Grid} (hwf : WFGrid g) {r c d : Nat}
    (hr : r < 9) (hc : c < 9) (hz : getCell g r c = 0) (hd1 : 1 ≤ d)
    (f : Assignment) :
    IsCompletion (setCell g r c d) f ↔
      IsCompletion g f ∧ getCell (gridOfFun f) r c = d := by
  have hself : getCell (setCell g r c d) r c = d := getCell_setCell_self hwf hr hc d
  constructor
  · rintro ⟨hsolved, hext⟩
    have hd : getCell (gridOfFun f) r c = d := by
      have := hext r hr c hc (by rw [hself]; omega)
      rw [hself] at this
      exact this
    refine ⟨⟨hsolved, ?_⟩, hd⟩
    intro r2 hr2 c2 hc2 hnz
    have hne : ¬(r = r2 ∧ c = c2) := by
      intro e
      rw [← e.1, ← e.2] at hnz
      exact hnz hz
    have := hext r2 hr2 c2 hc2 (by rw [getCell_setCell_ne g r c d r2 c2 hne]; exact hnz)
    rw [getCell_setCell_ne g r c d r2 c2 hne] at this
    exact this
  · rintro ⟨⟨hsolved, hext⟩, hd⟩
    refine ⟨hsolved, ?_⟩
    intro r2 hr2 c2 hc2 hnz
    by_cases e : r = r2 ∧ c = c2
    · obtain ⟨er, ec⟩ := e
      subst er
      subst ec
      rw [hself]
      exact hd
    · rw [getCell_setCell_ne g r c d r2 c2 e] at hnz ⊢
      exact hext r2 hr2 c2 hc2 hnz

theorem no_completion_of_invalid {g : Grid} (hwf : WFGrid g) {r c d : Nat}
    (hr : r < 9) (hc : c < 9) (hz : getCell g r c = 0) (hd1 : 1 ≤ d)
    (hinv : isValid g r c d = false) {f : Assignment}
    (hf : IsCompletion g f) : getCell (gridOfFun f) r c ≠ d := by
  intro hfd
  have hnotall := (Bool.eq_false_iff.mp hinv)
  have : ¬ ∀ r2, r2 < 9 → ∀ c2, c2 < 9 → SameUnit r c r2 c2 →
      getCell g r2 c2 ≠ d := fun hall =>
    hnotall ((isValid_iff hwf hr hc).mpr hall)
  push_neg at this
  obtain ⟨r2, hr2, c2, hc2, hsame, hg2⟩ := this
  obtain ⟨⟨hfwf, hffull, hfcons⟩, hext⟩ := hf
  have hf2 : getCell (gridOfFun f) r2 c2 = d :=
    (hext r2 hr2 c2 hc2 (by omega)).trans hg2
  have hne : (r, c) ≠ (r2, c2) := by
    intro e
    rw [Prod.mk.injEq] at e
    rw [← e.1, ← e.2] at hg2
    omega
  exact hfcons r hr c hc r2 hr2 c2 hc2 hne hsame (by omega)
    (by rw [hfd, hf2])

theorem numSolutions_invalid {g : Grid} (hwf : WFGrid g) {r c d : Nat}
    (hr : r < 9) (hc : c < 9) (hz : getCell g r c = 0) (hd1 : 1 ≤ d)
    (hinv : isValid g r c d = false) :
    numSolutions (setCell g r c d) = 0 := by
  unfold numSolutions
  rw [Fintype.card_eq_zero_iff]
  constructor
  rintro ⟨f, hf⟩
  obtain ⟨hfg, hfd⟩ := (completion_setCell_iff hwf hr hc hz hd1 f).mp hf
  exact no_completion_of_invalid hwf hr hc hz hd1 hinv hfg hfd

theorem numSolutions_full {g : Grid} (hwf : WFGrid g) (hb : BoundedGrid g)
    (hcons : Consistent g)
    (hfull : ∀ r, r < 9 → ∀ c, c < 9 → getCell g r c ≠ 0) :
    numSolutions g = 1 := by
  have hdig : ∀ r, r < 9 → ∀ c, c < 9 →
      1 ≤ getCell g r c ∧ getCell g r c ≤ 9 := by
    intro r hr c hc
    have := hb r hr c hc
    have := hfull r hr c hc
    omega
  let fg : Assignment := fun r c =>
    ⟨getCell g r.val c.val - 1, by
      have := hdig r.val r.isLt c.val c.isLt
      omega⟩
  have hfg : gridOfFun fg = g := by
    apply grid_ext (gridOfFun_wf fg) hwf
    intro r hr c hc
    rw [getCell_gridOfFun fg hr hc]
    have := hdig r hr c hc
    show getCell g r c - 1 + 1 = getCell g r c
    omega
  have hcompl : IsCompletion g fg := by
    refine ⟨?_, ?_⟩
    · rw [hfg]
      exact ⟨hwf, fun r hr c hc => hdig r hr c hc, hcons⟩
    · intro r hr c hc _
      rw [hfg]
  unfold numSolutions
  rw [Fintype.card_eq_one_iff]
  refine ⟨⟨fg, hcompl⟩, ?_⟩
  rintro ⟨f, hf⟩
  have : gridOfFun f = gridOfFun fg := by
    apply grid_ext (gridOfFun_wf f) (gridOfFun_wf fg)
    intro r hr c hc
    rw [hfg]
    exact hf.2 r hr c hc (hfull r hr c hc)
  exact Subtype.ext (gridOfFun_injective this)

theorem listsum_shift (h : Nat → Nat) :
    ((List.range' 1 9).map h).sum = ∑ b ∈ Finset.range 9, h (b + 1) := by
  have h9 : List.range' 1 9 = [1, 2, 3, 4, 5, 6, 7, 8, 9] := rfl
  rw [h9]
  simp only [List.map_cons, List.map_nil, List.sum_cons, List.sum_nil,
    Finset.sum_range_succ, Finset.sum_range_zero, Nat.reduceAdd]
  omega

theorem numSolutions_rec_fin {g : Grid} (hwf : WFGrid g) {r c : Nat}
    (hr : r < 9) (hc : c < 9) (hz : getCell g r c = 0) :
    numSolutions g =
      ∑ b ∈ Finset.range 9, numSolutions (setCell g r c (b + 1)) := by
  unfold numSolutions
  rw [Fintype.card_subtype]
  rw [@Finset.card_eq_sum_card_fiberwise Assignment Nat _
    (fun f => (f ⟨r, hr⟩ ⟨c, hc⟩).val)
    (Finset.univ.filter fun f => IsCompletion g f) (Finset.range 9)
    (fun f _ => Finset.mem_range.mpr (f ⟨r, hr⟩ ⟨c, hc⟩).isLt)]
  apply Finset.sum_congr rfl
  intro b hb
  rw [Fintype.card_subtype, Finset.filter_filter]
  have hpq : ∀ f ∈ (Finset.univ : Finset Assignment),
      (IsCompletion g f ∧ (f ⟨r, hr⟩ ⟨c, hc⟩).val = b) ↔
        IsCompletion (setCell g r c (b + 1)) f := by
    intro f _
    rw [completion_setCell_iff hwf hr hc hz (by omega) f,
      getCell_gridOfFun f hr hc]
    exact and_congr_right fun _ => by omega
  rw [Finset.filter_congr hpq]

theorem numSolutions_rec {g : Grid} (hwf : WFGrid g) {r c : Nat}
    (hr : r < 9) (hc : c < 9) (hz : getCell g r c = 0) :
    numSolutions g =
      ((List.range' 1 9).map fun d => numSolutions (setCell g r c d)).sum :=
  (numSolutions_rec_fin hwf hr hc hz).trans
    (listsum_shift fun d => numSolutions (setCell g r c d)).symm

/-! ### Correctness of the solution counter -/

theorem digitList_bounds : ∀ d ∈ digitList, 1 ≤ d ∧ d ≤ 9 := by decide

theorem countAux_fold (limit fuel : Nat) (g : Grid) (r c : Nat)
    (hwf : WFGrid g) (hb : BoundedGrid g) (hcons : Consistent g)
    (hr : r < 9) (hc : c < 9) (hz : getCell g r c = 0)
    (hfe : emptiesCount g < fuel + 1)
    (ih : ∀ (g : Grid) (cnt : Nat), WFGrid g → BoundedGrid g → Consistent g →
      emptiesCount g < fuel → cnt ≤ limit →
      countAux limit fuel g cnt = min (cnt + numSolutions g) limit) :
    ∀ ds : List Nat, (∀ d ∈ ds, 1 ≤ d ∧ d ≤ 9) →
      ∀ acc, acc ≤ limit →
      ds.foldl
        (fun acc d =>
          if isValid g r c d then countAux limit fuel (setCell g r c d) acc
          else acc) acc
        = min (acc +
            ((ds.map fun d => numSolutions (setCell g r c d)).sum)) limit := by
  intro ds
  induction ds with
  | nil =>
    intro _ acc hacc
    simp only [List.foldl_nil, List.map_nil, List.sum_nil, Nat.add_zero]
    omega
  | cons d ds2 ihds =>
    intro hmem acc hacc
    have hd := hmem d (List.mem_cons_self d ds2)
    have htail : ∀ d2 ∈ ds2, 1 ≤ d2 ∧ d2 ≤ 9 := fun d2 h2 =>
      hmem d2 (List.mem_cons_of_mem d h2)
    rw [List.foldl_cons]
    by_cases hv : isValid g r c d
    · rw [if_pos hv]
      have hstep := ih (setCell g r c d) acc
        (wf_setCell hwf r c d)
        (bounded_setCell hwf hb hr hc hd.2)
        (consistent_setCell_valid hwf hcons hr hc hz hv)
        (by
          have := emptiesCount_setCell_lt hwf hr hc hz d (by omega)
          omega)
        hacc
      rw [hstep]
      rw [ihds htail _ (Nat.min_le_right _ _)]
      simp only [List.map_cons, List.sum_cons]
      omega
    · rw [if_neg hv]
      have hz0 : numSolutions (setCell g r c d) = 0 :=
        numSolutions_invalid hwf hr hc hz hd.1
          (Bool.eq_false_iff.mpr hv)
      rw [ihds htail acc hacc]
      simp only [List.map_cons, List.sum_cons, hz0, Nat.zero_add]

theorem countAux_correct (limit : Nat) :
    ∀ fuel, ∀ g : Grid, ∀ cnt, WFGrid g → BoundedGrid g → Consistent g →
      emptiesCount g < fuel → cnt ≤ limit →
      countAux limit fuel g cnt = min (cnt + numSolutions g) limit := by
  intro fuel
  induction fuel with
  | zero =>
    intro g cnt _ _ _ hfe _
    omega
  | succ fuel ih =>
    intro g cnt hwf hb hcons hfe hcnt
    by_cases hlim : limit ≤ cnt
    · rw [countAux, if_pos hlim]
      omega
    · rw [countAux, if_neg hlim]
      cases hfeq : firstEmpty g with
      | none =>
        have hfull := (firstEmpty_none_iff g).mp hfeq
        dsimp only
        rw [numSolutions_full hwf hb hcons hfull]
        omega
      | some rc =>
        obtain ⟨r, c⟩ := rc
        obtain ⟨hr, hc, hz⟩ := firstEmpty_some hfeq
        dsimp only
        rw [countAux_fold limit fuel g r c hwf hb hcons hr hc hz hfe ih
          digitList digitList_bounds cnt (by omega)]
        rw [numSolutions_rec hwf hr hc hz]
        rfl

/-! ### `_fill_board`: rollback, invariants, completeness -/

theorem fillTry_false (perms : Nat → List Nat) (fuel : Nat)
    (hFB : ∀ b k b2 k2, fillBoard perms fuel b k = (false, b2, k2) → b2 = b)
    (r c : Nat) :
    ∀ ds : List Nat, ∀ b k b2 k2, getCell b r c = 0 →
      fillTry perms fuel r c ds b k = (false, b2, k2) → b2 = b := by
  intro ds
  induction ds with
  | nil =>
    intro b k b2 k2 _ h
    rw [fillTry] at h
    injection h with h1 h2
    injection h2 with h2 h3
    exact h2.symm
  | cons d ds2 ihds =>
    intro b k b2 k2 hz h
    rw [fillTry] at h
    by_cases hv : isValid b r c d
    · rw [if_pos hv] at h
      cases hres : fillBoard perms fuel (setCell b r c d) k with
      | mk res rest =>
        obtain ⟨b3, k3⟩ := rest
        rw [hres] at h
        cases res with
        | true => simp at h
        | false =>
          simp only at h
          have hb3 : b3 = setCell b r c d := hFB _ _ _ _ hres
          rw [hb3, setCell_setCell] at h
          have hback : setCell b r c 0 = b := by
            have := setCell_self b r c
            rw [hz] at this
            exact this
          rw [hback] at h
          exact ihds b k3 b2 k2 hz h
    · rw [if_neg hv] at h
      exact ihds b k b2 k2 hz h

theorem fillBoard_false (perms : Nat → List Nat) :
    ∀ fuel, ∀ b k b2 k2, fillBoard perms fuel b k = (false, b2, k2) → b2 = b := by
  intro fuel
  induction fuel with
  | zero =>
    intro b k b2 k2 h
    rw [fillBoard] at h
    injection h with h1 h2
    injection h2 with h2 h3
    exact h2.symm
  | succ fuel ih =>
    intro b k b2 k2 h
    rw [fillBoard] at h
    cases hfeq : firstEmpty b with
    | none =>
      rw [hfeq] at h
      simp at h
    | some rc =>
      obtain ⟨r, c⟩ := rc
      rw [hfeq] at h
      obtain ⟨hr, hc, hz⟩ := firstEmpty_some hfeq
      exact fillTry_false perms fuel ih r c (perms k) b (k + 1) b2 k2 hz h

theorem fillTry_success (perms : Nat → List Nat) (fuel : Nat)
    (hFBS : ∀ b k b2 k2, WFGrid b → BoundedGrid b → Consistent b →
      fillBoard perms fuel b k = (true, b2, k2) →
      WFGrid b2 ∧ BoundedGrid b2 ∧ Consistent b2 ∧ firstEmpty b2 = none)
    {r c : Nat} (hr : r < 9) (hc : c < 9) :
    ∀ ds : List Nat, (∀ d ∈ ds, 1 ≤ d ∧ d ≤ 9) → ∀ b k b2 k2,
      WFGrid b → BoundedGrid b → Consistent b → getCell b r c = 0 →
      fillTry perms fuel r c ds b k = (true, b2, k2) →
      WFGrid b2 ∧ BoundedGrid b2 ∧ Consistent b2 ∧ firstEmpty b2 = none := by
  intro ds
  induction ds with
  | nil =>
    intro _ b k b2 k2 _ _ _ _ h
    rw [fillTry] at h
    simp at h
  | cons d ds2 ihds =>
    intro hmem b k b2 k2 hwf hb hcons hz h
    have hd := hmem d (List.mem_cons_self d ds2)
    have htail : ∀ d2 ∈ ds2, 1 ≤ d2 ∧ d2 ≤ 9 := fun d2 h2 =>
      hmem d2 (List.mem_cons_of_mem d h2)
    rw [fillTry] at h
    by_cases hv : isValid b r c d
    · rw [if_pos hv] at h
      cases hres : fillBoard perms fuel (setCell b r c d) k with
      | mk res rest =>
        obtain ⟨b3, k3⟩ := rest
        rw [hres] at h
        cases res with
        | true =>
          simp only at h
          injection h with h1 h2
          injection h2 with h2 h3
          subst h2
          exact hFBS _ _ _ _ (wf_setCell hwf r c d)
            (bounded_setCell hwf hb hr hc hd.2)
            (consistent_setCell_valid hwf hcons hr hc hz hv) hres
        | false =>
          simp only at h
          have hb3 : b3 = setCell b r c d := fillBoard_false perms fuel _ _ _ _ hres
          rw [hb3, setCell_setCell] at h
          have hback : setCell b r c 0 = b := by
            have := setCell_self b r c
            rw [hz] at this
            exact this
          rw [hback] at h
          exact ihds htail b k3 b2 k2 hwf hb hcons hz h
    · rw [if_neg hv] at h
      exact ihds htail b k b2 k2 hwf hb hcons hz h

theorem fillBoard_success (perms : Nat → List Nat)
    (Hp : ∀ n, ∀ d ∈ perms n, 1 ≤ d ∧ d ≤ 9) :
    ∀ fuel, ∀ b k b2 k2, WFGrid b → BoundedGrid b → Consistent b →
      fillBoard perms fuel b k = (true, b2, k2) →
      WFGrid b2 ∧ BoundedGrid b2 ∧ Consistent b2 ∧ firstEmpty b2 = none := by
  intro fuel
  induction fuel with
  | zero =>
    intro b k b2 k2 _ _ _ h
    rw [fillBoard] at h
    simp at h
  | succ fuel ih =>
    intro b k b2 k2 hwf hb hcons h
    rw [fillBoard] at h
    cases hfeq : firstEmpty b with
    | none =>
      rw [hfeq] at h
      simp only at h
      injection h with h1 h2
      injection h2 with h2 h3
      subst h2
      exact ⟨hwf, hb, hcons, hfeq⟩
    | some rc =>
      obtain ⟨r, c⟩ := rc
      rw [hfeq] at h
      obtain ⟨hr, hc, hz⟩ := firstEmpty_some hfeq
      exact fillTry_success perms fuel ih hr hc (perms k) (Hp k) b (k + 1)
        b2 k2 hwf hb hcons hz h

theorem gridOfFun_pos (f : Assignment) {r c : Nat} (hr : r < 9) (hc : c < 9) :
    1 ≤ getCell (gridOfFun f) r c ∧ getCell (gridOfFun f) r c ≤ 9 := by
  rw [getCell_gridOfFun f hr hc]
  have := (f ⟨r, hr⟩ ⟨c, hc⟩).isLt
  omega

theorem valid_of_completion {g : Grid} (hwf : WFGrid g) {r c : Nat}
    (hr : r < 9) (hc : c < 9) (hz : getCell g r c = 0) {f : Assignment}
    (hf : IsCompletion g f) :
    isValid g r c (getCell (gridOfFun f) r c) = true := by
  by_contra hcontra
  have hinv : isValid g r c (getCell (gridOfFun f) r c) = false :=
    Bool.eq_false_iff.mpr hcontra
  exact no_completion_of_invalid hwf hr hc hz (gridOfFun_pos f hr hc).1
    hinv hf rfl

theorem fillTry_complete (perms : Nat → List Nat) (fuel : Nat)
    (hFBC : ∀ b k, WFGrid b → BoundedGrid b → Consistent b →
      emptiesCount b < fuel → (∃ f, IsCompletion b f) →
      (fillBoard perms fuel b k).1 = true)
    {r c : Nat} (hr : r < 9) (hc : c < 9) :
    ∀ ds : List Nat, ∀ b k,
      WFGrid b → BoundedGrid b → Consistent b → getCell b r c = 0 →
      emptiesCount b ≤ fuel →
      (∃ f, IsCompletion b f ∧ getCell (gridOfFun f) r c ∈ ds) →
      (fillTry perms fuel r c ds b k).1 = true := by
  intro ds
  induction ds with
  | nil =>
    intro b k _ _ _ _ _ hex
    obtain ⟨f, _, hmem⟩ := hex
    exact absurd hmem (List.not_mem_nil _)
  | cons d ds2 ihds =>
    intro b k hwf hb hcons hz hfuel hex
    obtain ⟨f, hf, hmem⟩ := hex
    rw [fillTry]
    by_cases hvd : isValid b r c d
    · rw [if_pos hvd]
      cases hres : fillBoard perms fuel (setCell b r c d) k with
      | mk res rest =>
        obtain ⟨b3, k3⟩ := rest
        cases res with
        | true => rfl
        | false =>
          simp only
          have hb3 : b3 = setCell b r c d := fillBoard_false perms fuel _ _ _ _ hres
          have hback : setCell b3 r c 0 = b := by
            rw [hb3, setCell_setCell]
            have := setCell_self b r c
            rw [hz] at this
            exact this
          rw [hback]
          rcases List.mem_cons.mp hmem with hdd | hdd2
          · exfalso
            have hd1 := (gridOfFun_pos f hr hc).1
            have hcompl2 : IsCompletion (setCell b r c d) f := by
              rw [completion_setCell_iff hwf hr hc hz (by omega) f]
              exact ⟨hf, hdd⟩
            have hlt : emptiesCount (setCell b r c d) < fuel := by
              have := emptiesCount_setCell_lt hwf hr hc hz d (by omega)
              omega
            have := hFBC (setCell b r c d) k (wf_setCell hwf r c d)
              (bounded_setCell hwf hb hr hc (by
                have := gridOfFun_pos f hr hc
                omega))
              (consistent_setCell_valid hwf hcons hr hc hz hvd)
              hlt ⟨f, hcompl2⟩
            rw [hres] at this
            simp at this
          · exact ihds b k3 hwf hb hcons hz hfuel ⟨f, hf, hdd2⟩
    · rw [if_neg hvd]
      have hdd2 : getCell (gridOfFun f) r c ∈ ds2 := by
        rcases List.mem_cons.mp hmem with hdd | hdd2
        · exfalso
          have := valid_of_completion hwf hr hc hz hf
          rw [← hdd] at hvd
          exact hvd this
        · exact hdd2
      exact ihds b k hwf hb hcons hz hfuel ⟨f, hf, hdd2⟩

theorem fillBoard_complete (perms : Nat → List Nat)
    (Hperms : ∀ n, (perms n).Perm digitList) :
    ∀ fuel, ∀ b k, WFGrid b → BoundedGrid b → Consistent b →
      emptiesCount b < fuel → (∃ f, IsCompletion b f) →
      (fillBoard perms fuel b k).1 = true := by
  intro fuel
  induction fuel with
  | zero =>
    intro b k _ _ _ hfe _
    omega
  | succ fuel ih =>
    intro b k hwf hb hcons hfe hex
    rw [fillBoard]
    cases hfeq : firstEmpty b with
    | none => rfl
    | some rc =>
      obtain ⟨r, c⟩ := rc
      obtain ⟨hr, hc, hz⟩ := firstEmpty_some hfeq
      simp only
      obtain ⟨f, hf⟩ := hex
      apply fillTry_complete perms fuel ih hr hc (perms k) b (k + 1)
        hwf hb hcons hz (by omega)
      refine ⟨f, hf, ?_⟩
      rw [(Hperms k).mem_iff]
      unfold digitList
      rw [List.mem_range'_1]
      have := gridOfFun_pos f hr hc
      omega

/-! ### The generated solved board -/

theorem getCell_emptyGrid (r c : Nat) : getCell emptyGrid r c = 0 := by
  have hinner : ∀ c2 : Nat, (List.replicate 9 (0 : Nat)).getD c2 0 = 0 := by
    intro c2
    rcases Nat.lt_or_ge c2 9 with h2 | h2
    · rw [List.getD_eq_getElem _ _
        (show c2 < (List.replicate 9 (0 : Nat)).length by
          rw [List.length_replicate]; exact h2)]
      exact List.getElem_replicate _ _
    · rw [List.getD_eq_default _ _
        (show (List.replicate 9 (0 : Nat)).length ≤ c2 by
          rw [List.length_replicate]; exact h2)]
  unfold getCell
  rcases Nat.lt_or_ge r 9 with h | h
  · have hrow : emptyGrid.getD r [] = List.replicate 9 0 := by
      rw [List.getD_eq_getElem _ _
        (show r < emptyGrid.length by
          rw [show emptyGrid.length = 9 from rfl]; exact h)]
      unfold emptyGrid
      exact List.getElem_replicate _ _
    rw [hrow]
    exact hinner c
  · rw [List.getD_eq_default _ _
      (show emptyGrid.length ≤ r by
        rw [show emptyGrid.length = 9 from rfl]; exact h)]
    rfl

theorem emptyGrid_completion : IsCompletion emptyGrid sampleAssignment := by
  have hgrid : gridOfFun sampleAssignment = sampleSolved := by decide
  constructor
  · rw [hgrid]
    decide
  · intro r hr c hc h0
    exact absurd (getCell_emptyGrid r c) h0

theorem perm_digit_bounds {perms : Nat → List Nat}
    (Hperms : ∀ n, (perms n).Perm digitList) :
    ∀ n, ∀ d ∈ perms n, 1 ≤ d ∧ d ≤ 9 := fun n d hd =>
  digitList_bounds d ((Hperms n).mem_iff.mp hd)

theorem fillBoard_eq_of_true {perms : Nat → List Nat} {b : Grid} {k : Nat}
    (h : (fillBoard perms 82 b k).1 = true) :
    fillBoard perms 82 b k = (true, (fillBoard perms 82 b k).2.1,
      (fillBoard perms 82 b k).2.2) := by
  cases hres : fillBoard perms 82 b k with
  | mk res rest =>
    rw [hres] at h
    cases res with
    | true => rfl
    | false => simp at h

theorem generateSolvedBoard_solved (perms : Nat → List Nat)
    (Hperms : ∀ n, (perms n).Perm digitList) :
    (fillBoard perms 82 emptyGrid 0).1 = true ∧
      Solved (generateSolvedBoard perms) ∧
      firstEmpty (generateSolvedBoard perms) = none := by
  have htrue : (fillBoard perms 82 emptyGrid 0).1 = true :=
    fillBoard_complete perms Hperms 82 emptyGrid 0 (by decide) (by decide)
      (by decide)
      (by have := emptiesCount_le emptyGrid; omega)
      ⟨sampleAssignment, emptyGrid_completion⟩
  refine ⟨htrue, ?_⟩
  unfold generateSolvedBoard
  have hres := fillBoard_eq_of_true htrue
  have hprops := fillBoard_success perms (perm_digit_bounds Hperms) 82
    emptyGrid 0 _ _ (by decide) (by decide) (by decide) hres
  obtain ⟨hwf, hb, hcons, hnone⟩ := hprops
  have hfull := (firstEmpty_none_iff _).mp hnone
  refine ⟨⟨hwf, ?_, hcons⟩, hnone⟩
  intro r hr c hc
  have h1 := hfull r hr c hc
  have h2 := hb r hr c hc
  omega

/-! ### The removal loop -/

theorem clueCount_of_full {g : Grid}
    (hfull : ∀ r, r < 9 → ∀ c, c < 9 → getCell g r c ≠ 0) :
    clueCount g = 81 := by
  unfold clueCount
  rw [Finset.filter_true_of_mem]
  · simp
  · intro p hp
    rw [Finset.mem_product, Finset.mem_range, Finset.mem_range] at hp
    exact hfull p.1 hp.1 p.2 hp.2

theorem clueCount_setCell_zero {g : Grid} (hwf : WFGrid g) {r c : Nat}
    (hr : r < 9) (hc : c < 9) (hnz : getCell g r c ≠ 0) :
    clueCount (setCell g r c 0) = clueCount g - 1 := by
  unfold clueCount
  have hmem : (r, c) ∈ (Finset.range 9 ×ˢ Finset.range 9).filter
      (fun p => getCell g p.1 p.2 ≠ 0) := by
    rw [Finset.mem_filter, Finset.mem_product, Finset.mem_range, Finset.mem_range]
    exact ⟨⟨hr, hc⟩, hnz⟩
  have hset : (Finset.range 9 ×ˢ Finset.range 9).filter
      (fun p => getCell (setCell g r c 0) p.1 p.2 ≠ 0) =
      ((Finset.range 9 ×ˢ Finset.range 9).filter
        (fun p => getCell g p.1 p.2 ≠ 0)).erase (r, c) := by
    ext p
    rw [Finset.mem_erase, Finset.mem_filter, Finset.mem_filter]
    constructor
    · rintro ⟨hp, hv⟩
      by_cases e : r = p.1 ∧ c = p.2
      · exfalso
        rw [← e.1, ← e.2, getCell_setCell_self hwf hr hc] at hv
        exact hv rfl
      · rw [getCell_setCell_ne g r c 0 p.1 p.2 e] at hv
        refine ⟨?_, hp, hv⟩
        intro hpe
        rw [hpe] at e
        exact e ⟨rfl, rfl⟩
    · rintro ⟨hpe, hp, hv⟩
      refine ⟨hp, ?_⟩
      have e : ¬(r = p.1 ∧ c = p.2) := by
        intro he
        apply hpe
        obtain ⟨p1, p2⟩ := p
        simp only at he
        rw [← he.1, ← he.2]
      rw [getCell_setCell_ne g r c 0 p.1 p.2 e]
      exact hv
  rw [hset, Finset.card_erase_of_mem hmem]

theorem removeCells_invariants (target : Nat) :
    ∀ cells : List (Nat × Nat), ∀ p : Grid, ∀ clues : Nat,
      WFGrid p → BoundedGrid p → Consistent p →
      (∀ q ∈ cells, q.1 < 9 ∧ q.2 < 9) →
      countSolutions p 2 = 1 →
      WFGrid (removeCells target cells p clues) ∧
        BoundedGrid (removeCells target cells p clues) ∧
        Consistent (removeCells target cells p clues) ∧
        countSolutions (removeCells target cells p clues) 2 = 1 := by
  intro cells
  induction cells with
  | nil =>
    intro p clues hwf hb hcons _ hcount
    exact ⟨hwf, hb, hcons, hcount⟩
  | cons q rest ihc =>
    intro p clues hwf hb hcons hmem hcount
    obtain ⟨r, c⟩ := q
    have hq := hmem (r, c) (List.mem_cons_self _ _)
    have htail : ∀ q2 ∈ rest, q2.1 < 9 ∧ q2.2 < 9 := fun q2 h2 =>
      hmem q2 (List.mem_cons_of_mem _ h2)
    rw [removeCells]
    by_cases hstop : clues ≤ target
    · rw [if_pos hstop]
      exact ⟨hwf, hb, hcons, hcount⟩
    · rw [if_neg hstop]
      by_cases hcnt : countSolutions (setCell p r c 0) 2 ≠ 1
      · rw [if_pos hcnt]
        have hrestore : setCell (setCell p r c 0) r c (getCell p r c) = p := by
          rw [setCell_setCell, setCell_self]
        rw [hrestore]
        exact ihc p clues hwf hb hcons htail hcount
      · rw [if_neg hcnt]
        push_neg at hcnt
        exact ihc (setCell p r c 0) (clues - 1)
          (wf_setCell hwf r c 0)
          (bounded_setCell hwf hb hq.1 hq.2 (by omega))
          (consistent_setCell_zero hwf hcons hq.1 hq.2)
          htail hcnt

theorem removeCells_min_clues (target : Nat) :
    ∀ cells : List (Nat × Nat), ∀ p : Grid, ∀ clues : Nat,
      WFGrid p → cells.Nodup →
      (∀ q ∈ cells, q.1 < 9 ∧ q.2 < 9) →
      (∀ q ∈ cells, getCell p q.1 q.2 ≠ 0) →
      clueCount p = clues → target ≤ clues →
      target ≤ clueCount (removeCells target cells p clues) := by
  intro cells
  induction cells with
  | nil =>
    intro p clues _ _ _ _ hclue htar
    rw [removeCells]
    omega
  | cons q rest ihc =>
    intro p clues hwf hnd hmem hnz hclue htar
    obtain ⟨r, c⟩ := q
    have hq := hmem (r, c) (List.mem_cons_self _ _)
    have hqnz := hnz (r, c) (List.mem_cons_self _ _)
    have htail : ∀ q2 ∈ rest, q2.1 < 9 ∧ q2.2 < 9 := fun q2 h2 =>
      hmem q2 (List.mem_cons_of_mem _ h2)
    rw [removeCells]
    by_cases hstop : clues ≤ target
    · rw [if_pos hstop]
      omega
    · rw [if_neg hstop]
      by_cases hcnt : countSolutions (setCell p r c 0) 2 ≠ 1
      · rw [if_pos hcnt]
        have hrestore : setCell (setCell p r c 0) r c (getCell p r c) = p := by
          rw [setCell_setCell, setCell_self]
        rw [hrestore]
        exact ihc p clues hwf (List.Nodup.of_cons hnd) htail
          (fun q2 h2 => hnz q2 (List.mem_cons_of_mem _ h2)) hclue (by omega)
      · rw [if_neg hcnt]
        apply ihc (setCell p r c 0) (clues - 1)
          (wf_setCell hwf r c 0) (List.Nodup.of_cons hnd) htail
        · intro q2 h2
          have hne : ¬(r = q2.1 ∧ c = q2.2) := by
            intro he
            have : (r, c) = q2 := by
              obtain ⟨q21, q22⟩ := q2
              simp only at he
              rw [he.1, he.2]
            rw [List.nodup_cons] at hnd
            exact hnd.1 (this ▸ h2)
          rw [getCell_setCell_ne p r c 0 q2.1 q2.2 hne]
          exact hnz q2 (List.mem_cons_of_mem _ h2)
        · rw [clueCount_setCell_zero hwf hq.1 hq.2 hqnz, hclue]
        · omega

/-! ### Claim C2: the solution counter -/

theorem countSolutions_eq_min_aux {g : Grid} (limit : Nat) (hwf : WFGrid g)
    (hb : BoundedGrid g) (hcons : Consistent g) :
    countSolutions g limit = min (numSolutions g) limit := by
  unfold countSolutions
  rw [countAux_correct limit 82 g 0 hwf hb hcons
    (by have := emptiesCount_le g; omega) (by omega)]
  omega

/-- Claim C2 (amended): for every well-formed 9x9 grid of digits whose
filled cells already satisfy Sudoku legality, `_count_solutions(g, limit)`
returns `min(N, limit)` where `N` is the number of distinct completions of
`g` into a full valid grid; in particular the search stops the moment the
running count reaches `limit` and returns `limit`. -/
theorem countSolutions_eq_min {g : Grid} (limit : Nat) (hwf : WFGrid g)
    (hb : BoundedGrid g) (hcons : Consistent g) :
    countSolutions g limit = min (numSolutions g) limit :=
  countSolutions_eq_min_aux limit hwf hb hcons

/-- Witness for C2's amended theorem at the empty grid and limit 2. -/
theorem countSolutions_eq_min_witness :
    countSolutions emptyGrid 2 = min (numSolutions emptyGrid) 2 :=
  countSolutions_eq_min 2 (by decide) (by decide) (by decide)

/-- Claim C2 counterexample: on the fully filled all-ones grid (not a
legal position), the counter reports 1 although the grid has no legal
completion at all, so `count_solutions` differs from `min(N, limit)`:
the counter never validates the pre-filled cells. -/
theorem countSolutions_onesGrid_counterexample :
    countSolutions onesGrid 2 ≠ min (numSolutions onesGrid) 2 := by
  have h1 : countSolutions onesGrid 2 = 1 := by decide
  have h0 : numSolutions onesGrid = 0 := by
    unfold numSolutions
    rw [Fintype.card_eq_zero_iff]
    constructor
    rintro ⟨f, ⟨hsolved, hext⟩⟩
    have ha := hext 0 (by omega) 0 (by omega) (by decide)
    have hb2 := hext 0 (by omega) 1 (by omega) (by decide)
    have hcons := hsolved.2.2
    have h00 : getCell onesGrid 0 0 = 1 := by decide
    have h01 : getCell onesGrid 0 1 = 1 := by decide
    exact hcons 0 (by omega) 0 (by omega) 0 (by omega) 1 (by omega)
      (by decide) (Or.inl rfl) (by rw [ha, h00]; omega)
      (by rw [ha, hb2, h00, h01])
  rw [h1, h0]
  decide

/-! ### Claim C3: the backtracking fill always succeeds from empty -/

/-- Claim C3: starting from the all-zero grid, `_fill_board` returns true
for every sequence of digit shuffles, and the resulting grid is a
complete valid Sudoku grid (every cell a digit 1..9, no repetition in any
row, column or box). -/
theorem fillBoard_emptyGrid_succeeds (perms : Nat → List Nat)
    (Hperms : ∀ n, (perms n).Perm digitList) :
    (fillBoard perms 82 emptyGrid 0).1 = true ∧
      Solved (fillBoard perms 82 emptyGrid 0).2.1 := by
  have h := generateSolvedBoard_solved perms Hperms
  refine ⟨h.1, ?_⟩
  have hsol := h.2.1
  unfold generateSolvedBoard at hsol
  exact hsol

/-- Witness for C3 with the identity shuffle stream. -/
theorem fillBoard_emptyGrid_succeeds_witness :
    (fillBoard constPerms 82 emptyGrid 0).1 = true ∧
      Solved (fillBoard constPerms 82 emptyGrid 0).2.1 :=
  fillBoard_emptyGrid_succeeds constPerms fun _ => List.Perm.refl digitList

/-! ### Claim C1: generated puzzles are unique -/

theorem generatePuzzle_fst (perms : Nat → List Nat) (target : Nat)
    (cells : List (Nat × Nat)) :
    (generatePuzzle perms target cells).1 =
      createPuzzle (generateSolvedBoard perms) target cells := rfl

theorem countSolutions_of_no_empty {g : Grid} (h : firstEmpty g = none) :
    countSolutions g 2 = 1 := by
  unfold countSolutions
  rw [show (82 : Nat) = 81 + 1 from rfl, countAux]
  rw [if_neg (by omega), h]

theorem createPuzzle_unique (perms : Nat → List Nat) (target : Nat)
    (cells : List (Nat × Nat)) (Hperms : ∀ n, (perms n).Perm digitList)
    (hcells : cells.Perm allCells) :
    countSolutions (createPuzzle (generateSolvedBoard perms) target cells) 2
        = 1 ∧
      WFGrid (createPuzzle (generateSolvedBoard perms) target cells) ∧
      BoundedGrid (createPuzzle (generateSolvedBoard perms) target cells) ∧
      Consistent (createPuzzle (generateSolvedBoard perms) target cells) := by
  obtain ⟨_, ⟨hwf, hfull, hcons⟩, hnone⟩ :=
    generateSolvedBoard_solved perms Hperms
  have hb : BoundedGrid (generateSolvedBoard perms) := by
    intro r hr c hc
    exact (hfull r hr c hc).2
  have hbase : countSolutions (generateSolvedBoard perms) 2 = 1 :=
    countSolutions_of_no_empty hnone
  have hmem : ∀ q ∈ cells, q.1 < 9 ∧ q.2 < 9 := fun q hq =>
    allCells_bounds q (hcells.mem_iff.mp hq)
  unfold createPuzzle
  obtain ⟨h1, h2, h3, h4⟩ :=
    removeCells_invariants target cells (generateSolvedBoard perms) 81
      hwf hb hcons hmem hbase
  exact ⟨h4, h1, h2, h3⟩

/-- Claim C1: every puzzle returned by `generate_puzzle`, under any
outcome of the random choices, passes the uniqueness check
(`count_solutions(puzzle, 2) == 1`) and indeed has exactly one completion
into a full valid Sudoku grid. -/
theorem generatePuzzle_unique (d : Difficulty) (perms : Nat → List Nat)
    (target : Nat) (cells : List (Nat × Nat))
    (Hperms : ∀ n, (perms n).Perm digitList)
    (htmin : (difficultyClues d).1 ≤ target)
    (htmax : target ≤ (difficultyClues d).2)
    (hcells : cells.Perm allCells) :
    countSolutions (generatePuzzle perms target cells).1 2 = 1 ∧
      numSolutions (generatePuzzle perms target cells).1 = 1 := by
  rw [generatePuzzle_fst]
  obtain ⟨hcount, hwf, hb, hcons⟩ :=
    createPuzzle_unique perms target cells Hperms hcells
  refine ⟨hcount, ?_⟩
  have := countSolutions_eq_min_aux 2 hwf hb hcons
  omega

/-- Witness for C1 at easy difficulty, target 36, identity outcomes. -/
theorem generatePuzzle_unique_witness :
    countSolutions (generatePuzzle constPerms 36 allCells).1 2 = 1 ∧
      numSolutions (generatePuzzle constPerms 36 allCells).1 = 1 :=
  generatePuzzle_unique .easy constPerms 36 allCells
    (fun _ => List.Perm.refl digitList) (by decide) (by decide)
    (List.Perm.refl allCells)

/-! ### Claim C4: clue counts -/

theorem puzzle_clues_ge_target (perms : Nat → List Nat) (target : Nat)
    (cells : List (Nat × Nat)) (Hperms : ∀ n, (perms n).Perm digitList)
    (hcells : cells.Perm allCells) (htar : target ≤ 81) :
    target ≤ clueCount (generatePuzzle perms target cells).1 := by
  rw [generatePuzzle_fst]
  obtain ⟨_, ⟨hwf, hfull, hcons⟩, hnone⟩ :=
    generateSolvedBoard_solved perms Hperms
  have hnz := (firstEmpty_none_iff _).mp hnone
  have hclue : clueCount (generateSolvedBoard perms) = 81 :=
    clueCount_of_full hnz
  have hmem : ∀ q ∈ cells, q.1 < 9 ∧ q.2 < 9 := fun q hq =>
    allCells_bounds q (hcells.mem_iff.mp hq)
  have hnzc : ∀ q ∈ cells, getCell (generateSolvedBoard perms) q.1 q.2 ≠ 0 :=
    fun q hq => hnz q.1 (hmem q hq).1 q.2 (hmem q hq).2
  have hnd : cells.Nodup := (List.Perm.nodup_iff hcells).mpr allCells_nodup
  unfold createPuzzle
  exact removeCells_min_clues target cells (generateSolvedBoard perms) 81
    hwf hnd hmem hnzc hclue htar

theorem difficulty_max_le (d : Difficulty) : (difficultyClues d).2 ≤ 81 := by
  cases d <;> decide

/-- Claim C4 (amended): the clue count of a generated puzzle is always at
least the difficulty's configured minimum (indeed at least the drawn
target); an unlucky removal permutation can only leave MORE clues than
targeted, never fewer. -/
theorem generatePuzzle_clues_ge_min (d : Difficulty) (perms : Nat → List Nat)
    (target : Nat) (cells : List (Nat × Nat))
    (Hperms : ∀ n, (perms n).Perm digitList)
    (htmin : (difficultyClues d).1 ≤ target)
    (htmax : target ≤ (difficultyClues d).2)
    (hcells : cells.Perm allCells) :
    (difficultyClues d).1 ≤ clueCount (generatePuzzle perms target cells).1 := by
  have h81 := difficulty_max_le d
  have := puzzle_clues_ge_target perms target cells Hperms hcells (by omega)
  omega

/-- Witness for C4's amended theorem. -/
theorem generatePuzzle_clues_ge_min_witness :
    (difficultyClues .easy).1 ≤
      clueCount (generatePuzzle constPerms 36 allCells).1 :=
  generatePuzzle_clues_ge_min .easy constPerms 36 allCells
    (fun _ => List.Perm.refl digitList) (by decide) (by decide)
    (List.Perm.refl allCells)

/-- Claim C4 counterexample: the claim both bounds the clue count above
by the difficulty's maximum and asserts that it may fall short of the
configured minimum; the latter possibility is refutable, because the clue
count never drops below the drawn target (which is at least the minimum),
so the conjunction is false. -/
theorem clueRange_claim_false :
    ¬ ((∀ (d : Difficulty) (perms : Nat → List Nat) (target : Nat)
          (cells : List (Nat × Nat)),
          (∀ n, (perms n).Perm digitList) →
          (difficultyClues d).1 ≤ target →
          target ≤ (difficultyClues d).2 →
          cells.Perm allCells →
          clueCount (generatePuzzle perms target cells).1 ≤
            (difficultyClues d).2) ∧
        (∃ (d : Difficulty) (perms : Nat → List Nat) (target : Nat)
          (cells : List (Nat × Nat)),
          (∀ n, (perms n).Perm digitList) ∧
          (difficultyClues d).1 ≤ target ∧
          target ≤ (difficultyClues d).2 ∧
          cells.Perm allCells ∧
          clueCount (generatePuzzle perms target cells).1 <
            (difficultyClues d).1)) := by
  rintro ⟨_, d, perms, target, cells, Hperms, hmin, hmax, hcells, hlt⟩
  have h81 := difficulty_max_le d
  have := puzzle_clues_ge_target perms target cells Hperms hcells (by omega)
  omega

/-! ### Claim C5: the hint oracle -/

theorem find?_eq_getD_of_min {α : Type} (p : α → Bool) (dflt : α) :
    ∀ (l : List α) (i : Nat), i < l.length → p (l.getD i dflt) = true →
      (∀ j, j < i → p (l.getD j dflt) = false) →
      l.find? p = some (l.getD i dflt) := by
  intro l
  induction l with
  | nil =>
    intro i hi
    simp at hi
  | cons x xs ihl =>
    intro i hi hp hmin
    cases i with
    | zero =>
      exact List.find?_cons_of_pos xs hp
    | succ i2 =>
      have h0 : p x = false := hmin 0 (by omega)
      rw [List.find?_cons_of_neg xs (by rw [h0]; exact Bool.false_ne_true)]
      exact ihl i2 (by simpa using hi) hp fun j hj => hmin (j + 1) (by omega)

theorem allCells_length : allCells.length = 81 := by decide

theorem allCells_getD : ∀ i, i < 81 → allCells.getD i (0, 0) = (i / 9, i % 9) := by
  decide

theorem allCells_find?_min (p : Nat × Nat → Bool) {r c : Nat}
    (hr : r < 9) (hc : c < 9) (hp : p (r, c) = true)
    (hmin : ∀ r2 c2, r2 < 9 → c2 < 9 → 9 * r2 + c2 < 9 * r + c →
      p (r2, c2) = false) :
    allCells.find? p = some (r, c) := by
  have hgd : allCells.getD (9 * r + c) (0, 0) = (r, c) := by
    rw [allCells_getD (9 * r + c) (by omega)]
    have h1 : (9 * r + c) / 9 = r := by omega
    have h2 : (9 * r + c) % 9 = c := by omega
    rw [h1, h2]
  have := find?_eq_getD_of_min p (0, 0) allCells (9 * r + c)
    (by rw [allCells_length]; omega) (by rw [hgd]; exact hp)
    (fun j hj => by
      rw [allCells_getD j (by omega)]
      exact hmin (j / 9) (j % 9) (by omega) (by omega) (by omega))
  rw [hgd] at this
  exact this

theorem getHint_match_some (cur sol : Grid) {r c : Nat}
    (h : (allCells.find? fun p =>
        getCell cur p.1 p.2 != 0 &&
        getCell cur p.1 p.2 != getCell sol p.1 p.2) = some (r, c)) :
    getHint cur sol = some (r, c, getCell sol r c) := by
  unfold getHint
  rw [h]

theorem getHint_match_none_some (cur sol : Grid) {r c : Nat}
    (h1 : (allCells.find? fun p =>
        getCell cur p.1 p.2 != 0 &&
        getCell cur p.1 p.2 != getCell sol p.1 p.2) = none)
    (h2 : (allCells.find? fun p => getCell cur p.1 p.2 == 0) = some (r, c)) :
    getHint cur sol = some (r, c, getCell sol r c) := by
  unfold getHint
  rw [h1, h2]

/-- Claim C5 (amended in the final iff): `get_hint` returns the
row-major-first incorrect cell with the solution digit, else the
row-major-first empty cell with the solution digit, and returns no hint
exactly when the grid is completely filled and agrees with the solution
(for the fully filled solutions produced by the generator this says:
exactly when `current` equals `solution`). -/
theorem getHint_spec (cur sol : Grid) (hcur : WFGrid cur) (hsol : WFGrid sol) :
    HintSpec cur sol := by
  refine ⟨?_, ?_, ?_⟩
  · intro r c hr hc hnz hne hmin
    apply getHint_match_some
    apply allCells_find?_min _ hr hc
    · rw [Bool.and_eq_true, bne_iff_ne, bne_iff_ne]
      exact ⟨hnz, hne⟩
    · intro r2 c2 hr2 hc2 hlt
      have := hmin r2 c2 hr2 hc2 hlt
      rw [Bool.eq_false_iff]
      intro hcontra
      rw [Bool.and_eq_true, bne_iff_ne, bne_iff_ne] at hcontra
      exact this hcontra
  · intro hok r c hr hc hz hmin
    apply getHint_match_none_some
    · rw [List.find?_eq_none]
      intro q hq
      obtain ⟨h1, h2⟩ := allCells_bounds q hq
      rw [Bool.not_eq_true, Bool.eq_false_iff]
      intro hcontra
      rw [Bool.and_eq_true, bne_iff_ne, bne_iff_ne] at hcontra
      exact hcontra.2 (hok q.1 q.2 h1 h2 hcontra.1)
    · apply allCells_find?_min _ hr hc
      · simp [hz]
      · intro r2 c2 hr2 hc2 hlt
        simp only [beq_eq_false_iff_ne]
        exact hmin r2 c2 hr2 hc2 hlt
  · unfold getHint
    cases h1 : allCells.find? fun p =>
        getCell cur p.1 p.2 != 0 &&
        getCell cur p.1 p.2 != getCell sol p.1 p.2 with
    | some q =>
      obtain ⟨a, b⟩ := q
      constructor
      · intro h
        simp at h
      · intro hall
        exfalso
        have hmem := List.mem_of_find?_eq_some h1
        have hpq := List.find?_some h1
        obtain ⟨ha, hb⟩ := allCells_bounds _ hmem
        rw [Bool.and_eq_true, bne_iff_ne, bne_iff_ne] at hpq
        exact hpq.2 (hall a b ha hb).2
    | none =>
      cases h2 : allCells.find? fun p => getCell cur p.1 p.2 == 0 with
      | some q =>
        obtain ⟨a, b⟩ := q
        constructor
        · intro h
          simp at h
        · intro hall
          exfalso
          have hmem := List.mem_of_find?_eq_some h2
          have hpq := List.find?_some h2
          obtain ⟨ha, hb⟩ := allCells_bounds _ hmem
          rw [beq_iff_eq] at hpq
          exact (hall a b ha hb).1 hpq
      | none =>
        constructor
        · intro _
          intro r c hr hc
          have hn1 := List.find?_eq_none.mp h1 (r, c) (mem_allCells r hr c hc)
          have hn2 := List.find?_eq_none.mp h2 (r, c) (mem_allCells r hr c hc)
          simp only [beq_iff_eq] at hn2
          refine ⟨hn2, ?_⟩
          by_contra hne
          apply hn1
          rw [Bool.and_eq_true, bne_iff_ne, bne_iff_ne]
          exact ⟨hn2, hne⟩
        · intro _
          rfl

/-- Witness for C5's amended theorem. -/
theorem getHint_spec_witness : HintSpec emptyGrid sampleSolved :=
  getHint_spec emptyGrid sampleSolved (by decide) (by decide)

/-- Claim C5 counterexample: with `current = solution =` the all-zero
grid, the two grids agree everywhere yet `get_hint` returns a hint (the
first empty cell), so "returns None iff current equals solution
everywhere" fails as stated for arbitrary grid pairs. -/
theorem getHint_none_iff_false :
    ¬(getHint emptyGrid emptyGrid = none ↔
      ∀ r c, r < 9 → c < 9 →
        getCell emptyGrid r c = getCell emptyGrid r c) := by
  intro h
  have hnone := h.mpr fun r c hr hc => rfl
  have hsome : getHint emptyGrid emptyGrid = some (0, 0, 0) := by decide
  rw [hsome] at hnone
  exact Option.noConfusion hnone

/-! ### Board operations: basic facts -/

theorem getNote_setNote_self {n : NotesGrid} (h : WFNotes n) {r c : Nat}
    (hr : r < 9) (hc : c < 9) (x : Finset Nat) :
    getNote (setNote n r c x) r c = x := by
  obtain ⟨hlen, hrow⟩ := h
  have hrl : r < n.length := by omega
  have hcl : c < (n.getD r []).length := by
    rw [List.getD_eq_getElem _ _ hrl, hrow _ (List.getElem_mem hrl)]
    exact hc
  unfold getNote setNote
  rw [list_getD_set_self _ _ _ _ hrl, list_getD_set_self _ _ _ _ hcl]

theorem getNote_setNote_ne (n : NotesGrid) (r c : Nat) (x : Finset Nat)
    (r2 c2 : Nat) (hne : ¬(r = r2 ∧ c = c2)) :
    getNote (setNote n r c x) r2 c2 = getNote n r2 c2 := by
  unfold getNote setNote
  by_cases hrl : r < n.length
  · by_cases hr : r = r2
    · subst hr
      have hc : c ≠ c2 := fun h => hne ⟨rfl, h⟩
      rw [list_getD_set_self _ _ _ _ hrl, list_getD_set_ne _ _ _ _ _ hc]
    · rw [list_getD_set_ne _ _ _ _ _ hr]
  · rw [List.set_eq_of_length_le (Nat.le_of_not_lt hrl)]

theorem wf_setNote {n : NotesGrid} (h : WFNotes n) (r c : Nat) (x : Finset Nat) :
    WFNotes (setNote n r c x) := by
  obtain ⟨hlen, hrow⟩ := h
  rcases Nat.lt_or_ge r n.length with hr | hr
  · refine ⟨by simp [setNote, hlen], ?_⟩
    intro row hm
    rcases List.mem_or_eq_of_mem_set hm with hmem | heq
    · exact hrow row hmem
    · subst heq
      rw [List.length_set, List.getD_eq_getElem _ _ hr]
      exact hrow _ (List.getElem_mem hr)
  · unfold setNote
    rw [List.set_eq_of_length_le hr]
    exact ⟨hlen, hrow⟩

theorem getNote_emptyNotes (r c : Nat) : getNote emptyNotes r c = ∅ := by
  have hinner : ∀ c2 : Nat,
      (List.replicate 9 (∅ : Finset Nat)).getD c2 ∅ = ∅ := by
    intro c2
    rcases Nat.lt_or_ge c2 9 with h2 | h2
    · rw [List.getD_eq_getElem _ _
        (show c2 < (List.replicate 9 (∅ : Finset Nat)).length by
          rw [List.length_replicate]; exact h2)]
      exact List.getElem_replicate _ _
    · rw [List.getD_eq_default _ _
        (show (List.replicate 9 (∅ : Finset Nat)).length ≤ c2 by
          rw [List.length_replicate]; exact h2)]
  unfold getNote
  rcases Nat.lt_or_ge r 9 with h | h
  · have hrow : emptyNotes.getD r [] = List.replicate 9 ∅ := by
      rw [List.getD_eq_getElem _ _
        (show r < emptyNotes.length by
          rw [show emptyNotes.length = 9 from rfl]; exact h)]
      unfold emptyNotes
      exact List.getElem_replicate _ _
    rw [hrow]
    exact hinner c
  · rw [List.getD_eq_default _ _
      (show emptyNotes.length ≤ r by
        rw [show emptyNotes.length = 9 from rfl]; exact h)]
    rfl

theorem setValue_initial (b : Board) (r c v : Nat) :
    (b.setValue r c v).2.initialValues = b.initialValues := by
  unfold Board.setValue
  split
  · rfl
  · split <;> rfl

theorem setValue_snd_of_given {b : Board} {r c : Nat}
    (h : getCell b.initialValues r c ≠ 0) (v : Nat) :
    b.setValue r c v = (false, b) := by
  unfold Board.setValue
  rw [if_pos h]

theorem setValue_snd_of_free {b : Board} {r c : Nat}
    (h : getCell b.initialValues r c = 0) (v : Nat) :
    (b.setValue r c v).2 =
      if v ≠ 0 then
        { b with
            currentValues := setCell b.currentValues r c v
            notes := setNote b.notes r c ∅ }
      else { b with currentValues := setCell b.currentValues r c v } := by
  unfold Board.setValue
  rw [if_neg (by omega)]
  split <;> rfl

theorem toggleNote_initial (b : Board) (r c d : Nat) :
    (b.toggleNote r c d).2.initialValues = b.initialValues := by
  unfold Board.toggleNote
  split
  · rfl
  · dsimp only
    split <;> rfl

theorem toggleNote_current (b : Board) (r c d : Nat) :
    (b.toggleNote r c d).2.currentValues = b.currentValues := by
  unfold Board.toggleNote
  split
  · rfl
  · dsimp only
    split <;> rfl

theorem toggleNote_of_filled {b : Board} {r c : Nat}
    (h : getCell b.currentValues r c ≠ 0) (d : Nat) :
    b.toggleNote r c d = (false, b) := by
  unfold Board.toggleNote
  rw [if_pos h]

theorem isGiven_false_iff (b : Board) (r c : Nat) :
    b.isGiven r c = false ↔ getCell b.initialValues r c = 0 := by
  unfold Board.isGiven
  rw [bne_eq_false_iff_eq]

theorem setCell_oob2 {g : Grid} (hwf : WFGrid g) {r c : Nat}
    (h : 9 ≤ r ∨ 9 ≤ c) (v : Nat) : setCell g r c v = g := by
  have hlen : g.length = 9 := hwf.1
  rcases h with h | h
  · exact setCell_oob g r c v (by omega)
  · unfold setCell
    rcases Nat.lt_or_ge r 9 with hr | hr
    · have hrow : (g.getD r []).set c v = g.getD r [] := by
        apply List.set_eq_of_length_le
        rw [rowLength_of_wf hwf hr]
        exact h
      rw [hrow]
      exact list_set_getD_self g r []
    · exact List.set_eq_of_length_le (by omega)

theorem setNote_oob {n : NotesGrid} (hwf : WFNotes n) {r c : Nat}
    (h : 9 ≤ r ∨ 9 ≤ c) (x : Finset Nat) : setNote n r c x = n := by
  have hlen : n.length = 9 := hwf.1
  rcases h with h | h
  · unfold setNote
    exact List.set_eq_of_length_le (by omega)
  · unfold setNote
    rcases Nat.lt_or_ge r 9 with hr | hr
    · have hrlen : (n.getD r []).length = 9 := by
        obtain ⟨hlen, hrow⟩ := hwf
        have hrl : r < n.length := by omega
        rw [List.getD_eq_getElem _ _ hrl]
        exact hrow _ (List.getElem_mem hrl)
      have hrow2 : (n.getD r []).set c x = n.getD r [] := by
        apply List.set_eq_of_length_le
        rw [hrlen]
        exact h
      rw [hrow2]
      exact list_set_getD_self n r []
    · exact List.set_eq_of_length_le (by omega)

theorem getCell_oob {g : Grid} (hwf : WFGrid g) {r c : Nat}
    (h : 9 ≤ r ∨ 9 ≤ c) : getCell g r c = 0 := by
  have hlen : g.length = 9 := hwf.1
  rcases Nat.lt_or_ge r 9 with hr | hr
  · have hc9 : 9 ≤ c := by omega
    have hout : (g.getD r []).getD c 0 = 0 :=
      List.getD_eq_default _ _ (by rw [rowLength_of_wf hwf hr]; exact hc9)
    exact hout
  · have hout : g.getD r [] = [] := List.getD_eq_default _ _ (by omega)
    unfold getCell
    rw [hout]
    rfl

theorem notes_rowLength {n : NotesGrid} (hwf : WFNotes n) {r : Nat}
    (hr : r < 9) : (n.getD r []).length = 9 := by
  obtain ⟨hlen, hrow⟩ := hwf
  have hrl : r < n.length := by omega
  rw [List.getD_eq_getElem _ _ hrl]
  exact hrow _ (List.getElem_mem hrl)

theorem getNote_oob {n : NotesGrid} (hwf : WFNotes n) {r c : Nat}
    (h : 9 ≤ r ∨ 9 ≤ c) : getNote n r c = ∅ := by
  have hlen : n.length = 9 := hwf.1
  rcases Nat.lt_or_ge r 9 with hr | hr
  · have hc9 : 9 ≤ c := by omega
    have hout : (n.getD r []).getD c ∅ = ∅ :=
      List.getD_eq_default _ _ (by rw [notes_rowLength hwf hr]; exact hc9)
    exact hout
  · have hout : n.getD r [] = [] := List.getD_eq_default _ _ (by omega)
    unfold getNote
    rw [hout]
    rfl

theorem boardInv_setValue {b : Board} (hwfc : WFGrid b.currentValues)
    (hwfn : WFNotes b.notes) (hbi : BoardInv b) (r c v : Nat)
    (hfree : getCell b.initialValues r c = 0) :
    BoardInv (b.setValue r c v).2 := by
  obtain ⟨hbi1, hbi2⟩ := hbi
  rw [setValue_snd_of_free hfree v]
  have hpart1 : ∀ r2, r2 < 9 → ∀ c2, c2 < 9 →
      getCell b.initialValues r2 c2 ≠ 0 →
      getCell (setCell b.currentValues r c v) r2 c2 =
        getCell b.initialValues r2 c2 := by
    intro r2 hr2 c2 hc2 hgiven
    have hne : ¬(r = r2 ∧ c = c2) := by
      intro e
      rw [← e.1, ← e.2] at hgiven
      exact hgiven hfree
    rw [getCell_setCell_ne _ _ _ _ _ _ hne]
    exact hbi1 r2 hr2 c2 hc2 hgiven
  by_cases hvz : v = 0
  · rw [if_neg (show ¬v ≠ 0 by omega)]
    refine ⟨hpart1, ?_⟩
    intro r2 hr2 c2 hc2 hnz
    dsimp only at hnz ⊢
    by_cases e : r = r2 ∧ c = c2
    · exfalso
      by_cases hrc : r < 9 ∧ c < 9
      · rw [← e.1, ← e.2, getCell_setCell_self hwfc hrc.1 hrc.2] at hnz
        exact hnz hvz
      · rw [setCell_oob2 hwfc (by omega) v] at hnz
        rw [← e.1, ← e.2] at hnz
        exact hnz (by
          apply getCell_oob hwfc
          omega)
    · rw [getCell_setCell_ne _ _ _ _ _ _ e] at hnz
      exact hbi2 r2 hr2 c2 hc2 hnz
  · rw [if_pos (show v ≠ 0 from hvz)]
    refine ⟨hpart1, ?_⟩
    intro r2 hr2 c2 hc2 hnz
    dsimp only at hnz ⊢
    by_cases e : r = r2 ∧ c = c2
    · rw [← e.1, ← e.2]
      by_cases hrc : r < 9 ∧ c < 9
      · exact getNote_setNote_self hwfn hrc.1 hrc.2 ∅
      · rw [setNote_oob hwfn (by omega) ∅]
        exact getNote_oob hwfn (by omega)
    · rw [getNote_setNote_ne _ _ _ _ _ _ e]
      rw [getCell_setCell_ne _ _ _ _ _ _ e] at hnz
      exact hbi2 r2 hr2 c2 hc2 hnz

theorem boardInv_toggleNote {b : Board} (hwfc : WFGrid b.currentValues)
    (hwfn : WFNotes b.notes) (hbi : BoardInv b) (r c d : Nat) :
    BoardInv (b.toggleNote r c d).2 := by
  obtain ⟨hbi1, hbi2⟩ := hbi
  unfold Board.toggleNote
  split
  · exact ⟨hbi1, hbi2⟩
  · next hempty =>
    rw [Decidable.not_not] at hempty
    have hkey : ∀ x : Finset Nat, BoardInv
        { b with notes := setNote b.notes r c x } := by
      intro x
      constructor
      · intro r2 hr2 c2 hc2 hgiven
        exact hbi1 r2 hr2 c2 hc2 hgiven
      · intro r2 hr2 c2 hc2 hnz
        dsimp only at hnz ⊢
        by_cases e : r = r2 ∧ c = c2
        · exfalso
          rw [← e.1, ← e.2] at hnz
          exact hnz hempty
        · rw [getNote_setNote_ne _ _ _ _ _ _ e]
          exact hbi2 r2 hr2 c2 hc2 hnz
    dsimp only
    split
    · exact hkey _
    · exact hkey _

/-! ### Game state invariant preservation -/

theorem setValue_wf_current {b : Board} (hwfc : WFGrid b.currentValues)
    (r c v : Nat) : WFGrid (b.setValue r c v).2.currentValues := by
  unfold Board.setValue
  split
  · exact hwfc
  · split
    · exact wf_setCell hwfc r c v
    · exact wf_setCell hwfc r c v

theorem setValue_wf_notes {b : Board} (hwfn : WFNotes b.notes)
    (r c v : Nat) : WFNotes (b.setValue r c v).2.notes := by
  unfold Board.setValue
  split
  · exact hwfn
  · split
    · exact wf_setNote hwfn r c ∅
    · exact hwfn

theorem toggleNote_wf_notes {b : Board} (hwfn : WFNotes b.notes)
    (r c d : Nat) : WFNotes (b.toggleNote r c d).2.notes := by
  unfold Board.toggleNote
  split
  · exact hwfn
  · dsimp only
    split
    · exact wf_setNote hwfn r c _
    · exact wf_setNote hwfn r c _

theorem setValue_notes_ne {b : Board} {r c : Nat}
    (hfree : getCell b.initialValues r c = 0) (v : Nat) (r2 c2 : Nat)
    (hne : ¬(r = r2 ∧ c = c2)) :
    getNote (b.setValue r c v).2.notes r2 c2 = getNote b.notes r2 c2 := by
  rw [setValue_snd_of_free hfree v]
  split
  · exact getNote_setNote_ne _ _ _ _ _ _ hne
  · rfl

theorem setValue_current_eq {b : Board} {r c : Nat}
    (hfree : getCell b.initialValues r c = 0) (v : Nat) :
    (b.setValue r c v).2.currentValues = setCell b.currentValues r c v := by
  rw [setValue_snd_of_free hfree v]
  split <;> rfl

theorem gameInv_congr {s1 s2 : GameState} (hb : s2.board = s1.board)
    (hh : s2.history = s1.history) (hi : s2.historyIndex = s1.historyIndex)
    (h : GameInv s1) : GameInv s2 := by
  unfold GameInv at h ⊢
  rw [hb, hh, hi]
  exact h

theorem moveOk_congr {b1 b2 : Board}
    (hinit : b2.initialValues = b1.initialValues) {m : Move}
    (h : MoveOk b1 m) : MoveOk b2 m := by
  unfold MoveOk at h ⊢
  rw [hinit]
  exact h

theorem gameInv_init : GameInv GameState.init := by
  refine ⟨by decide, by decide, by decide, by decide, by decide, ?_, by decide⟩
  intro m hm
  simp [GameState.init] at hm

theorem wf_emptyNotes : WFNotes emptyNotes := by decide

theorem gameInv_newGame (s : GameState) (d : Difficulty)
    (perms : Nat → List Nat) (target : Nat) (cells : List (Nat × Nat))
    (Hperms : ∀ n, (perms n).Perm digitList) (hcells : cells.Perm allCells) :
    GameInv (s.newGame d perms target cells) := by
  obtain ⟨_, hwf, hb, _⟩ := createPuzzle_unique perms target cells Hperms hcells
  unfold GameState.newGame
  refine ⟨by norm_num, by norm_num, ?_, ?_, ?_, ?_, ?_, ?_⟩
  · exact hwf
  · exact hwf
  · exact wf_emptyNotes
  · intro m hm
    simp at hm
  · intro r hr c hc _
    rfl
  · intro r hr c hc _
    exact getNote_emptyNotes r c

theorem gameInv_append {s : GameState} {B : Board} {m : Move}
    {s2 : GameState}
    (hlb : (-1 : Int) ≤ s.historyIndex)
    (hwfi : WFGrid B.initialValues) (hwfc : WFGrid B.currentValues)
    (hwfn : WFNotes B.notes) (hbi : BoardInv B)
    (hinit : B.initialValues = s.board.initialValues)
    (hmvs : ∀ mv ∈ s.history, MoveOk s.board mv)
    (hmok : MoveOk B m)
    (hb : s2.board = B)
    (hh : s2.history =
      (if s.historyIndex < (s.history.length : Int) - 1 then
        s.history.take (s.historyIndex + 1).toNat
      else s.history) ++ [m])
    (hi : s2.historyIndex = (s2.history.length : Int) - 1) :
    GameInv s2 := by
  have hlen : 1 ≤ s2.history.length := by
    rw [hh, List.length_append]
    simp
  refine ⟨?_, ?_, hb ▸ hwfi, hb ▸ hwfc, hb ▸ hwfn, ?_, hb ▸ hbi⟩
  · rw [hi]
    omega
  · rw [hi]
    omega
  · intro mv hmv
    rw [hh] at hmv
    rcases List.mem_append.mp hmv with hmem | hmem
    · have hmv2 : mv ∈ s.history := by
        split at hmem
        · exact List.mem_of_mem_take hmem
        · exact hmem
      exact moveOk_congr (hb ▸ hinit) (hmvs mv hmv2)
    · rw [List.mem_singleton] at hmem
      subst hmem
      rw [hb]
      exact hmok

theorem gameInv_makeMove (s : GameState) (r c v : Nat) (h : GameInv s) :
    GameInv (s.makeMove r c v).2 := by
  obtain ⟨hlb, hub, hwfi, hwfc, hwfn, hmvs, hbi⟩ := h
  unfold GameState.makeMove
  split
  · exact ⟨hlb, hub, hwfi, hwfc, hwfn, hmvs, hbi⟩
  · next hcond =>
    have hngiven : s.board.isGiven r c = false := by
      cases hgb : s.board.isGiven r c
      · rfl
      · exfalso
        apply hcond
        rw [hgb, Bool.or_true]
    have hfree : getCell s.board.initialValues r c = 0 :=
      (isGiven_false_iff _ _ _).mp hngiven
    have holdok : s.board.getValue r c ≠ 0 → s.board.getNotes r c = ∅ := by
      intro hnz
      by_cases hrc : r < 9 ∧ c < 9
      · exact hbi.2 r hrc.1 c hrc.2 hnz
      · exfalso
        apply hnz
        show getCell s.board.currentValues r c = 0
        exact getCell_oob hwfc (by omega)
    dsimp only
    split
    · -- notes-mode branch: a note toggle is recorded
      split
      · -- completion detected
        refine gameInv_append hlb ?_ ?_ ?_ ?_ ?_ hmvs ?_ rfl rfl rfl
        · rw [toggleNote_initial]
          exact hwfi
        · rw [toggleNote_current]
          exact hwfc
        · exact toggleNote_wf_notes hwfn r c v
        · exact boardInv_toggleNote hwfc hwfn hbi r c v
        · exact toggleNote_initial s.board r c v
        · refine ⟨?_, ?_, ?_⟩
          · show getCell (s.board.toggleNote r c v).2.initialValues r c = 0
            rw [toggleNote_initial]
            exact hfree
          · exact holdok
          · intro hnz
            have hB : s.board.toggleNote r c v = (false, s.board) :=
              toggleNote_of_filled hnz v
            show (s.board.toggleNote r c v).2.getNotes r c = ∅
            rw [hB]
            exact holdok hnz
      · -- still incomplete
        refine gameInv_append hlb ?_ ?_ ?_ ?_ ?_ hmvs ?_ rfl rfl rfl
        · rw [toggleNote_initial]
          exact hwfi
        · rw [toggleNote_current]
          exact hwfc
        · exact toggleNote_wf_notes hwfn r c v
        · exact boardInv_toggleNote hwfc hwfn hbi r c v
        · exact toggleNote_initial s.board r c v
        · refine ⟨?_, ?_, ?_⟩
          · show getCell (s.board.toggleNote r c v).2.initialValues r c = 0
            rw [toggleNote_initial]
            exact hfree
          · exact holdok
          · intro hnz
            have hB : s.board.toggleNote r c v = (false, s.board) :=
              toggleNote_of_filled hnz v
            show (s.board.toggleNote r c v).2.getNotes r c = ∅
            rw [hB]
            exact holdok hnz
    · -- value branch
      split
      · -- completion detected
        refine gameInv_append hlb ?_ ?_ ?_ ?_ ?_ hmvs ?_ rfl rfl rfl
        · rw [setValue_initial]
          exact hwfi
        · exact setValue_wf_current hwfc r c v
        · exact setValue_wf_notes hwfn r c v
        · exact boardInv_setValue hwfc hwfn hbi r c v hfree
        · exact setValue_initial s.board r c v
        · refine ⟨?_, ?_, ?_⟩
          · show getCell (s.board.setValue r c v).2.initialValues r c = 0
            rw [setValue_initial]
            exact hfree
          · exact holdok
          · intro _
            rfl
      · -- still incomplete
        refine gameInv_append hlb ?_ ?_ ?_ ?_ ?_ hmvs ?_ rfl rfl rfl
        · rw [setValue_initial]
          exact hwfi
        · exact setValue_wf_current hwfc r c v
        · exact setValue_wf_notes hwfn r c v
        · exact boardInv_setValue hwfc hwfn hbi r c v hfree
        · exact setValue_initial s.board r c v
        · refine ⟨?_, ?_, ?_⟩
          · show getCell (s.board.setValue r c v).2.initialValues r c = 0
            rw [setValue_initial]
            exact hfree
          · exact holdok
          · intro _
            rfl

theorem boardInv_restore {b : Board} (hwfc : WFGrid b.currentValues)
    (hwfn : WFNotes b.notes) (hbi : BoardInv b) {r c w : Nat} {x : Finset Nat}
    (hfree : getCell b.initialValues r c = 0)
    (hx : w ≠ 0 → x = ∅) {B : Board}
    (hBi : B.initialValues = b.initialValues)
    (hBc : B.currentValues = setCell b.currentValues r c w)
    (hBn : B.notes = setNote (b.setValue r c w).2.notes r c x) :
    BoardInv B := by
  unfold BoardInv
  rw [hBi, hBc, hBn]
  constructor
  · intro r2 hr2 c2 hc2 hgiven
    have hne : ¬(r = r2 ∧ c = c2) := by
      intro e
      rw [← e.1, ← e.2] at hgiven
      exact hgiven hfree
    rw [getCell_setCell_ne _ _ _ _ _ _ hne]
    exact hbi.1 r2 hr2 c2 hc2 hgiven
  · intro r2 hr2 c2 hc2 hnz
    by_cases e : r = r2 ∧ c = c2
    · have hr : r < 9 := by rw [e.1]; exact hr2
      have hc : c < 9 := by rw [e.2]; exact hc2
      rw [← e.1, ← e.2] at hnz ⊢
      rw [getNote_setNote_self (setValue_wf_notes hwfn r c w) hr hc x]
      rw [getCell_setCell_self hwfc hr hc] at hnz
      exact hx hnz
    · rw [getNote_setNote_ne _ _ _ _ _ _ e, setValue_notes_ne hfree w r2 c2 e]
      rw [getCell_setCell_ne _ _ _ _ _ _ e] at hnz
      exact hbi.2 r2 hr2 c2 hc2 hnz

theorem gameInv_restore {s s2 : GameState} (h : GameInv s) (r c : Nat)
    {w : Nat} {x : Finset Nat}
    (hfree : getCell s.board.initialValues r c = 0)
    (hx : w ≠ 0 → x = ∅)
    (hBi : s2.board.initialValues = s.board.initialValues)
    (hBc : s2.board.currentValues = setCell s.board.currentValues r c w)
    (hBn : s2.board.notes = setNote (s.board.setValue r c w).2.notes r c x)
    (hh : s2.history = s.history)
    (hilb : (-1 : Int) ≤ s2.historyIndex)
    (hiub : s2.historyIndex < (s.history.length : Int)) :
    GameInv s2 := by
  obtain ⟨hlb, hub, hwfi, hwfc, hwfn, hmvs, hbi⟩ := h
  refine ⟨hilb, by rw [hh]; exact hiub, ?_, ?_, ?_, ?_, ?_⟩
  · rw [hBi]
    exact hwfi
  · rw [hBc]
    exact wf_setCell hwfc _ _ _
  · rw [hBn]
    exact wf_setNote (setValue_wf_notes hwfn _ _ _) _ _ _
  · intro mv hmv
    rw [hh] at hmv
    exact moveOk_congr hBi (hmvs mv hmv)
  · exact boardInv_restore hwfc hwfn hbi hfree hx hBi hBc hBn

theorem gameInv_undo (s : GameState) (h : GameInv s) : GameInv s.undo.2 := by
  obtain ⟨hlb, hub, hwfi, hwfc, hwfn, hmvs, hbi⟩ := h
  unfold GameState.undo
  split
  · exact ⟨hlb, hub, hwfi, hwfc, hwfn, hmvs, hbi⟩
  · next hneg =>
    have hidx : s.historyIndex.toNat < s.history.length := by omega
    have hm : s.history.getD s.historyIndex.toNat defaultMove ∈ s.history := by
      rw [List.getD_eq_getElem _ _ hidx]
      exact List.getElem_mem hidx
    have hmok := hmvs _ hm
    dsimp only
    refine gameInv_restore ⟨hlb, hub, hwfi, hwfc, hwfn, hmvs, hbi⟩
      (s.history.getD s.historyIndex.toNat defaultMove).row
      (s.history.getD s.historyIndex.toNat defaultMove).col
      hmok.1 hmok.2.1 (setValue_initial _ _ _ _)
      (setValue_current_eq hmok.1 _) rfl rfl ?_ ?_
    · show (-1 : Int) ≤ s.historyIndex - 1
      omega
    · show s.historyIndex - 1 < (s.history.length : Int)
      omega

theorem gameInv_redo (s : GameState) (h : GameInv s) : GameInv s.redo.2 := by
  obtain ⟨hlb, hub, hwfi, hwfc, hwfn, hmvs, hbi⟩ := h
  unfold GameState.redo
  split
  · exact ⟨hlb, hub, hwfi, hwfc, hwfn, hmvs, hbi⟩
  · next hlt =>
    have hidx : (s.historyIndex + 1).toNat < s.history.length := by omega
    have hm : s.history.getD (s.historyIndex + 1).toNat defaultMove ∈
        s.history := by
      rw [List.getD_eq_getElem _ _ hidx]
      exact List.getElem_mem hidx
    have hmok := hmvs _ hm
    dsimp only
    split
    · refine gameInv_restore ⟨hlb, hub, hwfi, hwfc, hwfn, hmvs, hbi⟩
        (s.history.getD (s.historyIndex + 1).toNat defaultMove).row
        (s.history.getD (s.historyIndex + 1).toNat defaultMove).col
        hmok.1 hmok.2.2 (setValue_initial _ _ _ _)
        (setValue_current_eq hmok.1 _) rfl rfl ?_ ?_
      · show (-1 : Int) ≤ s.historyIndex + 1
        omega
      · show s.historyIndex + 1 < (s.history.length : Int)
        omega
    · refine gameInv_restore ⟨hlb, hub, hwfi, hwfc, hwfn, hmvs, hbi⟩
        (s.history.getD (s.historyIndex + 1).toNat defaultMove).row
        (s.history.getD (s.historyIndex + 1).toNat defaultMove).col
        hmok.1 hmok.2.2 (setValue_initial _ _ _ _)
        (setValue_current_eq hmok.1 _) rfl rfl ?_ ?_
      · show (-1 : Int) ≤ s.historyIndex + 1
        omega
      · show s.historyIndex + 1 < (s.history.length : Int)
        omega

theorem gameInv_append_restore {s : GameState} (m : Move) {s2 : GameState}
    (h : GameInv s) {w : Nat} {x : Finset Nat}
    (hfree : getCell s.board.initialValues m.row m.col = 0)
    (hx : w ≠ 0 → x = ∅)
    (hmok2 : m.oldValue ≠ 0 → m.oldNotes = ∅)
    (hmok3 : m.newValue ≠ 0 → m.newNotes = ∅)
    (hBi : s2.board.initialValues = s.board.initialValues)
    (hBc : s2.board.currentValues = setCell s.board.currentValues m.row m.col w)
    (hBn : s2.board.notes =
      setNote (s.board.setValue m.row m.col w).2.notes m.row m.col x)
    (hh : s2.history =
      (if s.historyIndex < (s.history.length : Int) - 1 then
        s.history.take (s.historyIndex + 1).toNat
      else s.history) ++ [m])
    (hi : s2.historyIndex = (s2.history.length : Int) - 1) :
    GameInv s2 := by
  obtain ⟨hlb, hub, hwfi, hwfc, hwfn, hmvs, hbi⟩ := h
  have hlen : 1 ≤ s2.history.length := by
    rw [hh, List.length_append]
    simp
  refine ⟨by rw [hi]; omega, by rw [hi]; omega, ?_, ?_, ?_, ?_, ?_⟩
  · rw [hBi]
    exact hwfi
  · rw [hBc]
    exact wf_setCell hwfc _ _ _
  · rw [hBn]
    exact wf_setNote (setValue_wf_notes hwfn _ _ _) _ _ _
  · intro mv hmv
    rw [hh] at hmv
    rcases List.mem_append.mp hmv with hmem | hmem
    · have hmv2 : mv ∈ s.history := by
        split at hmem
        · exact List.mem_of_mem_take hmem
        · exact hmem
      exact moveOk_congr hBi (hmvs mv hmv2)
    · rw [List.mem_singleton] at hmem
      subst hmem
      refine ⟨?_, hmok2, hmok3⟩
      rw [hBi]
      exact hfree
  · exact boardInv_restore hwfc hwfn hbi hfree hx hBi hBc hBn

theorem gameInv_clearCell (s : GameState) (r c : Nat) (h : GameInv s) :
    GameInv (s.clearCell r c).2 := by
  obtain ⟨hlb, hub, hwfi, hwfc, hwfn, hmvs, hbi⟩ := h
  unfold GameState.clearCell
  split
  · exact ⟨hlb, hub, hwfi, hwfc, hwfn, hmvs, hbi⟩
  · next hng =>
    have hngiven : s.board.isGiven r c = false := by
      cases hgb : s.board.isGiven r c with
      | false => rfl
      | true => exact absurd hgb hng
    have hfree : getCell s.board.initialValues r c = 0 :=
      (isGiven_false_iff _ _ _).mp hngiven
    have holdok : s.board.getValue r c ≠ 0 → s.board.getNotes r c = ∅ := by
      intro hnz
      by_cases hrc : r < 9 ∧ c < 9
      · exact hbi.2 r hrc.1 c hrc.2 hnz
      · exfalso
        apply hnz
        show getCell s.board.currentValues r c = 0
        exact getCell_oob hwfc (by omega)
    dsimp only
    split
    · exact gameInv_append_restore
        ⟨r, c, s.board.getValue r c, 0, s.board.getNotes r c, ∅⟩
        ⟨hlb, hub, hwfi, hwfc, hwfn, hmvs, hbi⟩
        hfree (fun _ => rfl) holdok (fun _ => rfl)
        (setValue_initial _ _ _ _) (setValue_current_eq hfree 0) rfl rfl rfl
    · exact gameInv_restore ⟨hlb, hub, hwfi, hwfc, hwfn, hmvs, hbi⟩ r c
        hfree (fun _ => rfl) (setValue_initial _ _ _ _)
        (setValue_current_eq hfree 0) rfl rfl hlb hub

theorem gameInv_applyHint (s : GameState) (h : GameInv s) :
    GameInv s.applyHint.2 := by
  unfold GameState.applyHint
  split
  · exact h
  · next a b d heq =>
    exact gameInv_congr rfl rfl rfl
      (gameInv_makeMove { s with notesMode := false } a b d
        (gameInv_congr rfl rfl rfl h))

theorem gameInv_toggleNotesMode (s : GameState) (h : GameInv s) :
    GameInv s.toggleNotesMode :=
  gameInv_congr rfl rfl rfl h

theorem gameInv_selectCell (s : GameState) (r c : Nat) (h : GameInv s) :
    GameInv (s.selectCell r c) := by
  unfold GameState.selectCell
  split
  · exact gameInv_congr rfl rfl rfl h
  · exact h

theorem gameInv_moveSelection (s : GameState) (dr dc : Int) (h : GameInv s) :
    GameInv (s.moveSelection dr dc) := by
  unfold GameState.moveSelection
  split
  · exact gameInv_congr rfl rfl rfl h
  · exact gameInv_congr rfl rfl rfl h

theorem gameInv_moveToNextEmpty (s : GameState) (rev : Bool) (h : GameInv s) :
    GameInv (s.moveToNextEmpty rev) := by
  unfold GameState.moveToNextEmpty
  dsimp only
  repeat' split
  all_goals exact gameInv_congr rfl rfl rfl h

theorem reachable_inv {s : GameState} (h : Reachable s) : GameInv s := by
  induction h with
  | init => exact gameInv_init
  | newGame d perms target cells _ hperms hlo hhi hcells _ =>
    exact gameInv_newGame _ d perms target cells hperms hcells
  | makeMove r c v _ ih => exact gameInv_makeMove _ r c v ih
  | undo _ ih => exact gameInv_undo _ ih
  | redo _ ih => exact gameInv_redo _ ih
  | applyHint _ ih => exact gameInv_applyHint _ ih
  | toggleNotesMode _ ih => exact gameInv_toggleNotesMode _ ih
  | clearCell r c _ ih => exact gameInv_clearCell _ r c ih
  | selectCell r c _ ih => exact gameInv_selectCell _ r c ih
  | moveSelection dr dc _ ih => exact gameInv_moveSelection _ dr dc ih
  | moveToNextEmpty rev _ ih => exact gameInv_moveToNextEmpty _ rev ih

/-- **C6.** The spec claims that from every reachable state with
`history_index >= 0`, `undo()` then `redo()` both succeed and restore the
`Board` (values *and* notes) exactly.  Refuted against the code: from a
fresh game, pencil note 5 into (0,0) in notes mode, leave notes mode and
"write" value 0 there (`demoS4`).  Undo and redo both return `true`, yet
the redo erases the pencilled note {5} that was on the board before the
undo, so the board is not restored: `make_move(r, c, 0)` leaves the old
notes on the board but records `new_notes = ∅`, which redo then applies. -/
theorem undo_redo_divergence :
    Reachable demoS4 ∧ (0 : Int) ≤ demoS4.historyIndex ∧
    demoS4.undo.1 = true ∧ demoS4.undo.2.redo.1 = true ∧
    demoS4.undo.2.redo.2.board ≠ demoS4.board := by
  refine ⟨?_, by decide, by decide, by decide, by decide⟩
  exact Reachable.makeMove 0 0 0 (Reachable.toggleNotesMode
    (Reachable.makeMove 0 0 5 (Reachable.toggleNotesMode Reachable.init)))

theorem makeMove_shape (s : GameState) (r c v : Nat)
    (hok : (s.makeMove r c v).1 = true) :
    (∃ m : Move, (s.makeMove r c v).2.history =
      (if s.historyIndex < (s.history.length : Int) - 1 then
        s.history.take (s.historyIndex + 1).toNat
      else s.history) ++ [m]) ∧
    (s.makeMove r c v).2.historyIndex =
      ((s.makeMove r c v).2.history.length : Int) - 1 := by
  by_cases hrej : (s.isComplete || s.board.isGiven r c) = true
  · unfold GameState.makeMove at hok
    rw [if_pos hrej] at hok
    exact Bool.noConfusion hok
  · unfold GameState.makeMove
    rw [if_neg hrej]
    dsimp only
    split
    · split
      · exact ⟨⟨_, rfl⟩, rfl⟩
      · exact ⟨⟨_, rfl⟩, rfl⟩
    · split
      · exact ⟨⟨_, rfl⟩, rfl⟩
      · exact ⟨⟨_, rfl⟩, rfl⟩

theorem redo_fail (s : GameState)
    (h : s.historyIndex ≥ (s.history.length : Int) - 1) :
    s.redo.1 = false := by
  unfold GameState.redo
  rw [if_pos h]

/-- **C7.** A successful `make_move` truncates the history to the entries
up to the current index before appending, and leaves `history_index` at
`len(history) - 1`; consequently after `make_move; undo; undo;` and any
new successful `make_move`, a `redo()` returns `false`. -/
theorem makeMove_truncates (s : GameState) (r c v : Nat)
    (hok : (s.makeMove r c v).1 = true)
    (hub : s.historyIndex < (s.history.length : Int)) :
    ((∃ m : Move, (s.makeMove r c v).2.history =
        s.history.take (s.historyIndex + 1).toNat ++ [m]) ∧
      (s.makeMove r c v).2.historyIndex =
        ((s.makeMove r c v).2.history.length : Int) - 1) ∧
    (∀ (t : GameState) (r1 c1 v1 r2 c2 v2 : Nat),
      ((t.makeMove r1 c1 v1).2.undo.2.undo.2.makeMove r2 c2 v2).1 = true →
      ((t.makeMove r1 c1 v1).2.undo.2.undo.2.makeMove r2 c2 v2).2.redo.1
        = false) := by
  constructor
  · obtain ⟨⟨m, hm⟩, hidx⟩ := makeMove_shape s r c v hok
    refine ⟨⟨m, ?_⟩, hidx⟩
    rw [hm]
    by_cases hcase : s.historyIndex < (s.history.length : Int) - 1
    · rw [if_pos hcase]
    · rw [if_neg hcase]
      have htake : s.history.take (s.historyIndex + 1).toNat = s.history :=
        List.take_of_length_le (by omega)
      rw [htake]
  · intro t r1 c1 v1 r2 c2 v2 hok2
    apply redo_fail
    have hidx2 := (makeMove_shape _ r2 c2 v2 hok2).2
    omega

/-- Witness for C7: a concrete successful move from the initial state. -/
theorem makeMove_truncates_witness :
    (GameState.init.makeMove 0 0 5).1 = true ∧
    GameState.init.historyIndex < (GameState.init.history.length : Int) ∧
    (GameState.init.makeMove 0 0 5).2.historyIndex =
      ((GameState.init.makeMove 0 0 5).2.history.length : Int) - 1 :=
  ⟨by decide, by decide,
    (makeMove_truncates GameState.init 0 0 5 (by decide) (by decide)).1.2⟩

/-- **C8.** From any reachable state, every `GameState` operation
(`new_game`, `make_move`, `undo`, `redo`, `clear_cell`, `apply_hint`)
preserves the Board invariant: given cells keep their initial value, and
notes are empty wherever a value is present. -/
theorem reachable_boardInv (s : GameState) (h : Reachable s) :
    BoardInv s.board ∧
    (∀ d perms target cells, (∀ n, (perms n).Perm digitList) →
      cells.Perm allCells → BoardInv (s.newGame d perms target cells).board) ∧
    (∀ r c v, BoardInv (s.makeMove r c v).2.board) ∧
    BoardInv s.undo.2.board ∧
    BoardInv s.redo.2.board ∧
    (∀ r c, BoardInv (s.clearCell r c).2.board) ∧
    BoardInv s.applyHint.2.board := by
  have hi := reachable_inv h
  refine ⟨hi.2.2.2.2.2.2, ?_, ?_, ?_, ?_, ?_, ?_⟩
  · intro d perms target cells hperms hcells
    exact (gameInv_newGame s d perms target cells hperms hcells).2.2.2.2.2.2
  · intro r c v
    exact (gameInv_makeMove s r c v hi).2.2.2.2.2.2
  · exact (gameInv_undo s hi).2.2.2.2.2.2
  · exact (gameInv_redo s hi).2.2.2.2.2.2
  · intro r c
    exact (gameInv_clearCell s r c hi).2.2.2.2.2.2
  · exact (gameInv_applyHint s hi).2.2.2.2.2.2

/-- Witness for C8 at the freshly constructed game state. -/
theorem reachable_boardInv_witness : BoardInv GameState.init.board :=
  (reachable_boardInv GameState.init Reachable.init).1

/-- **C9.** `make_move` returns `false` and leaves the whole `GameState`
unchanged whenever the game is already complete or the cell is given. -/
theorem makeMove_rejected_noop (s : GameState) (r c v : Nat)
    (h : s.isComplete = true ∨ s.board.isGiven r c = true) :
    s.makeMove r c v = (false, s) := by
  have hcond : (s.isComplete || s.board.isGiven r c) = true := by
    rcases h with h | h
    · rw [h, Bool.true_or]
    · rw [h, Bool.or_true]
  unfold GameState.makeMove
  rw [if_pos hcond]

/-- Witness for C9 on a completed game. -/
theorem makeMove_rejected_noop_witness :
    ({ GameState.init with isComplete := true } : GameState).isComplete
      = true ∧
    ({ GameState.init with isComplete := true } : GameState).makeMove 0 0 5 =
      (false, { GameState.init with isComplete := true }) :=
  ⟨rfl, makeMove_rejected_noop { GameState.init with isComplete := true }
    0 0 5 (Or.inl rfl)⟩

/-- **C10.** With notes mode on and `v ≠ 0`, `make_move` on a non-given
cell already holding a value returns `true`, leaves the board unchanged
(the underlying `toggle_note` refuses valued cells), yet appends a `Move`
whose before and after fields are identical — same value, both note sets
empty — and moves `history_index` to the end of the history. -/
theorem makeMove_note_on_filled (s : GameState) (r c v : Nat)
    (hnm : s.notesMode = true) (hv : v ≠ 0)
    (hnc : s.isComplete = false) (hng : s.board.isGiven r c = false)
    (hval : s.board.getValue r c ≠ 0) (hbi : BoardInv s.board)
    (hr : r < 9) (hc : c < 9) :
    (s.makeMove r c v).1 = true ∧
    (s.makeMove r c v).2.board = s.board ∧
    (s.makeMove r c v).2.history =
      (if s.historyIndex < (s.history.length : Int) - 1 then
        s.history.take (s.historyIndex + 1).toNat
      else s.history) ++
        [⟨r, c, s.board.getValue r c, s.board.getValue r c, ∅, ∅⟩] ∧
    (s.makeMove r c v).2.historyIndex =
      ((s.makeMove r c v).2.history.length : Int) - 1 := by
  have hcond : ¬((s.isComplete || s.board.isGiven r c) = true) := by
    rw [hnc, hng]
    decide
  have hnotes : s.board.getNotes r c = ∅ := hbi.2 r hr c hc hval
  have htog : s.board.toggleNote r c v = (false, s.board) :=
    toggleNote_of_filled hval v
  unfold GameState.makeMove
  rw [if_neg hcond]
  dsimp only
  rw [hnm]
  simp only [Bool.true_and]
  rw [if_pos (decide_eq_true hv)]
  rw [htog]
  dsimp only
  rw [hnotes]
  split
  · exact ⟨rfl, rfl, rfl, rfl⟩
  · exact ⟨rfl, rfl, rfl, rfl⟩

/-- Witness for C10: with notes mode on, note 5 on the already-filled
cell (0,0) of a fresh game where 7 was just entered. -/
theorem makeMove_note_on_filled_witness :
    ((GameState.init.makeMove 0 0 7).2.toggleNotesMode.makeMove 0 0 5).1
      = true :=
  (makeMove_note_on_filled (GameState.init.makeMove 0 0 7).2.toggleNotesMode
    0 0 5 (by decide) (by decide) (by decide) (by decide) (by decide)
    (by decide) (by decide) (by decide)).1

end Sudoku
